import Mathlib

/-!
Verification of the temporal sequence smoothers and per-scene consistency
checks of the vlm-odd-pipeline repository.

The smoothers come from `src/processing/preprocess_normalize.py`
(`correct_yes_no_sequence`, `correct_number_of_lanes`,
`correct_horizontal_plane`, `_convert_lane_value`) and the checks from
`src/processing/.ipynb_checkpoints/semantic_scene_consistency-checkpoint.py`
(`get_issue_labels`, `add_problem_flags`, `check_divided_undivided_consistency`,
`flag_number_of_lanes`, `safe_list_len`, `check_signs_time_pairs`,
`check_cloudiness_scene_switch`).

Python lists are modelled as Lean `List`s; a pandas `NaN` cell is modelled as
`none` of an `Option` type; each scene-wise check is modelled on one scene's
sequence (the Python drivers only iterate the same computation over scenes).
The in-place while-loops of the smoothers are modelled by structural
recursions whose unprocessed suffix is exactly the part of the Python list
that the loop has not yet reached (the loops never write ahead of the
cursor, and read behind the cursor only at index `i - 1`, which the
recursions carry explicitly as the previous corrected value).
-/

namespace VlmOdd

/-- Total list indexing with an explicit default, used throughout the
development so that index lemmas can be proved by plain induction. -/
def nthD (d : α) : List α → Nat → α
  | [], _ => d
  | x :: _, 0 => x
  | _ :: t, i + 1 => nthD d t i

/-- Number of leading elements of the list equal to `x`; the length of the
maximal run of `x` at the head. -/
def leadCount [DecidableEq α] (x : α) : List α → Nat
  | [] => 0
  | y :: t => if y = x then leadCount x t + 1 else 0

/-- Drop the maximal leading run of `x`. -/
def dropRun [DecidableEq α] (x : α) (l : List α) : List α :=
  l.drop (leadCount x l)

/-- Tabulate `f` at `c` consecutive indices starting from `i`. -/
def tab (f : Nat → α) : Nat → Nat → List α
  | _, 0 => []
  | i, c + 1 => f i :: tab f (i + 1) c

section nthDLemmas

theorem nthD_nil (d : α) (i : Nat) : nthD d [] i = d := rfl

theorem nthD_cons_zero (d x : α) (t : List α) : nthD d (x :: t) 0 = x := rfl

theorem nthD_cons_succ (d x : α) (t : List α) (i : Nat) :
    nthD d (x :: t) (i + 1) = nthD d t i := rfl

theorem nthD_of_ge (d : α) : ∀ (l : List α) (i : Nat), l.length ≤ i → nthD d l i = d
  | [], _, _ => rfl
  | _ :: t, i + 1, h => nthD_of_ge d t i (by simpa using h)
  | x :: t, 0, h => by simp at h

theorem nthD_indep (d d' : α) :
    ∀ (l : List α) (i : Nat), i < l.length → nthD d l i = nthD d' l i
  | x :: _, 0, _ => rfl
  | _ :: t, i + 1, h => nthD_indep d d' t i (by simpa using h)

theorem nthD_append_left (d : α) :
    ∀ (l₁ l₂ : List α) (i : Nat), i < l₁.length →
      nthD d (l₁ ++ l₂) i = nthD d l₁ i
  | x :: _, _, 0, _ => rfl
  | _ :: t, l₂, i + 1, h => nthD_append_left d t l₂ i (by simpa using h)
  | [], _, i, h => by simp at h

theorem nthD_append_right (d : α) :
    ∀ (l₁ l₂ : List α) (i : Nat),
      nthD d (l₁ ++ l₂) (l₁.length + i) = nthD d l₂ i
  | [], _, i => by simp [Nat.zero_add]
  | x :: t, l₂, i => by
      have := nthD_append_right d t l₂ i
      simpa [Nat.succ_add] using this

theorem nthD_map (f : α → β) (d : α) (d' : β) :
    ∀ (l : List α) (i : Nat), i < l.length →
      nthD d' (l.map f) i = f (nthD d l i)
  | x :: _, 0, _ => rfl
  | _ :: t, i + 1, h => nthD_map f d d' t i (by simpa using h)
  | [], i, h => by simp at h

theorem nthD_replicate (d x : α) :
    ∀ (c i : Nat), i < c → nthD d (List.replicate c x) i = x
  | c + 1, 0, _ => rfl
  | c + 1, i + 1, h => by
      simpa [List.replicate_succ] using nthD_replicate d x c i (by omega)

theorem nthD_set (d x : α) :
    ∀ (l : List α) (i j : Nat), i ≠ j → nthD d (l.set i x) j = nthD d l j
  | [], _, _, _ => by simp [List.set]
  | a :: t, 0, 0, h => absurd rfl h
  | a :: t, 0, j + 1, _ => rfl
  | a :: t, i + 1, 0, _ => rfl
  | a :: t, i + 1, j + 1, h =>
      nthD_set d x t i j (by omega)

theorem nthD_set_eq (d x : α) :
    ∀ (l : List α) (i : Nat), i < l.length → nthD d (l.set i x) i = x
  | a :: t, 0, _ => rfl
  | a :: t, i + 1, h => nthD_set_eq d x t i (by simpa using h)
  | [], i, h => by simp at h

theorem tab_length (f : Nat → α) : ∀ (i c : Nat), (tab f i c).length = c
  | _, 0 => rfl
  | i, c + 1 => by simp [tab, tab_length f (i + 1) c]

theorem nthD_tab (f : Nat → α) (d : α) :
    ∀ (c i j : Nat), j < c → nthD d (tab f i c) j = f (i + j)
  | c + 1, i, 0, _ => by simp [tab, nthD]
  | c + 1, i, j + 1, h => by
      have ih := nthD_tab f d c (i + 1) j (by omega)
      have harith : i + 1 + j = i + (j + 1) := by omega
      rw [tab, nthD_cons_succ, ih, harith]
  | 0, _, _, h => by omega

end nthDLemmas

section RunLemmas

variable [DecidableEq α]

theorem leadCount_le_length (x : α) : ∀ l : List α, leadCount x l ≤ l.length
  | [] => Nat.le_refl 0
  | y :: t => by
      by_cases h : y = x
      · simpa [leadCount, h] using Nat.succ_le_succ (leadCount_le_length x t)
      · simp [leadCount, h]

theorem dropRun_length_le (x : α) (l : List α) : (dropRun x l).length ≤ l.length := by
  simp [dropRun]

theorem runDecomp (x : α) : ∀ l : List α,
    List.replicate (leadCount x l) x ++ dropRun x l = l
  | [] => rfl
  | y :: t => by
      by_cases h : y = x
      · subst h
        have ih := runDecomp y t
        simp only [leadCount, if_pos rfl, dropRun] at *
        simpa [List.replicate_succ] using ih
      · simp [leadCount, dropRun, h]

theorem dropRun_head_ne (x : α) :
    ∀ (l : List α) (y : α), (dropRun x l).head? = some y → y ≠ x
  | [], y, h => by simp [dropRun, leadCount] at h
  | z :: t, y, h => by
      by_cases hz : z = x
      · exact dropRun_head_ne x t y (by simpa [dropRun, leadCount, hz] using h)
      · simp [dropRun, leadCount, hz] at h
        subst h; exact hz

theorem dropRun_cons_ne (x z : α) (t : List α) (h : z ≠ x) :
    dropRun x (z :: t) = z :: t := by
  simp [dropRun, leadCount, h]

theorem dropRun_cons_eq (x : α) (t : List α) :
    dropRun x (x :: t) = dropRun x t := by
  simp [dropRun, leadCount, List.drop_succ_cons]

theorem leadCount_replicate_append (x : α) (t : List α) :
    ∀ c : Nat, leadCount x (List.replicate c x ++ t) = c + leadCount x t
  | 0 => by simp
  | c + 1 => by
      simp [List.replicate_succ, leadCount, leadCount_replicate_append x t c]
      omega

theorem dropRun_replicate_append (x : α) (t : List α) :
    ∀ c : Nat, dropRun x (List.replicate c x ++ t) = dropRun x t
  | 0 => by simp
  | c + 1 => by
      rw [List.replicate_succ, List.cons_append, dropRun_cons_eq]
      exact dropRun_replicate_append x t c

theorem dropRun_dropRun (x : α) (l : List α) :
    dropRun x (dropRun x l) = dropRun x l := by
  cases h : dropRun x l with
  | nil => simp [dropRun, leadCount]
  | cons y t =>
      have hy : y ≠ x := dropRun_head_ne x l y (by simp [h])
      simp [dropRun_cons_ne x y t hy]

theorem leadCount_cons_self (x : α) (t : List α) :
    leadCount x (x :: t) = leadCount x t + 1 := by simp [leadCount]

end RunLemmas

/-! ### The three smoothers of `preprocess_normalize.py` -/

section Smoothers

variable [DecidableEq α]

/-- Inner loop of `correct_yes_no_sequence` (lines 179-202): positions from 1
on; `prev` is the already-corrected value at the previous index.  Each step
measures the run of the current value in the (still untouched) suffix, flips
it to `prev` when it is shorter than `k` and differs from `prev`, then
continues after the run. -/
def yesNoGo (k : Nat) (prev : α) : List α → List α
  | [] => []
  | x :: t =>
      let m := leadCount x t
      if m + 1 < k ∧ x ≠ prev then
        List.replicate (m + 1) prev ++ yesNoGo k prev (t.drop m)
      else
        List.replicate (m + 1) x ++ yesNoGo k x (t.drop m)
termination_by l => l.length
decreasing_by
  all_goals simp; have := List.length_drop m t; omega

/-- Run-length smoothing of `correct_yes_no_sequence`: the first element is
trusted as-is, then short runs that differ from the preceding corrected
value are flipped to it. -/
def correct_yes_no_sequence (s : List α) (k : Nat) : List α :=
  match s with
  | [] => []
  | x :: t => x :: yesNoGo k x t

/-- Loop of `correct_number_of_lanes` (lines 205-225).  `prev` is `none` at
the head of the sequence (the Python loop then substitutes the block's own
value); the successor value is read from the untouched suffix. -/
def spikeGo (k : Nat) (prev : Option α) : List α → List α
  | [] => []
  | x :: t =>
      let m := leadCount x t
      let rest := t.drop m
      let pv := prev.getD x
      let nv := rest.head?.getD x
      if x ≠ pv ∧ x ≠ nv ∧ m + 1 < k then
        List.replicate (m + 1) pv ++ spikeGo k (some pv) rest
      else
        List.replicate (m + 1) x ++ spikeGo k (some x) rest
termination_by l => l.length
decreasing_by
  all_goals simp; have := List.length_drop m t; omega

/-- Spike removal for lane counts: a short block differing from both its
neighbours is overwritten with the previous value. -/
def correct_number_of_lanes (s : List α) (k : Nat) : List α :=
  spikeGo k none s

/-- Loop of `correct_horizontal_plane` (lines 228-257) over cells that may be
missing (`none` models a pandas `NaN`).  A missing cell is skipped (and
becomes the previous cell for the next step); neighbour lookups substitute
the block's own value when the neighbour is missing or absent. -/
def hpGo (k : Nat) (prev : Option (Option α)) : List (Option α) → List (Option α)
  | [] => []
  | none :: t => none :: hpGo k (some none) t
  | some v :: t =>
      let m := leadCount (some v) t
      let rest := t.drop m
      let pv : Option α := some ((prev.getD (some v)).getD v)
      let nv : Option α := some ((rest.head?.getD (some v)).getD v)
      if some v ≠ pv ∧ some v ≠ nv ∧ m + 1 < k then
        List.replicate (m + 1) pv ++ hpGo k (some pv) rest
      else
        List.replicate (m + 1) (some v) ++ hpGo k (some (some v)) rest
termination_by l => l.length
decreasing_by
  all_goals simp
  all_goals omega

/-- Blip removal for the horizontal-plane column, NaN-tolerant. -/
def correct_horizontal_plane (s : List (Option α)) (k : Nat) : List (Option α) :=
  hpGo k none s

end Smoothers

example : correct_yes_no_sequence ["No", "No", "Yes", "No", "No", "No"] 3 =
    ["No", "No", "No", "No", "No", "No"] := by
  simp [correct_yes_no_sequence, yesNoGo, leadCount]

example : correct_number_of_lanes [2, 2, 2, 5, 2, 2] 3 = [2, 2, 2, 2, 2, 2] := by
  simp [correct_number_of_lanes, spikeGo, leadCount]

example : correct_number_of_lanes [1, 2, 1, 3, 1] 3 = [1, 1, 1, 1, 1] := by
  simp [correct_number_of_lanes, spikeGo, leadCount]

example : correct_horizontal_plane
    [some "Straight", none, some "Curved", some "Straight", some "Straight"] 4 =
    [some "Straight", none, some "Curved", some "Straight", some "Straight"] := by
  simp [correct_horizontal_plane, hpGo, leadCount]

/-! ### Block-structure predicates for the smoothed output

`blocksOk k prev l` formalises the property claimed of run-length smoothing:
parsing `l` into maximal runs, with `prev` the value of the block just before
the parse point, every run either continues `prev` or has length at least
`k`. -/

section BlocksOk

variable [DecidableEq α]

def blocksOk (k : Nat) (prev : α) : List α → Bool
  | [] => true
  | x :: t =>
      (decide (x = prev) || decide (k ≤ 1 + leadCount x t)) &&
        blocksOk k x (dropRun x t)
termination_by l => l.length
decreasing_by
  simp [dropRun]
  omega

/-- Property claimed by the spec for `correct_yes_no_sequence`: apart from the
run containing the first element, every maximal run has length at least
`k`. -/
def blocksOkTop (k : Nat) : List α → Bool
  | [] => true
  | x :: t => blocksOk k x t

theorem blocksOk_cons (k : Nat) (p x : α) (t : List α) :
    blocksOk k p (x :: t) =
      ((decide (x = p) || decide (k ≤ 1 + leadCount x t)) &&
        blocksOk k x (dropRun x t)) := by
  rw [blocksOk]

theorem yesNoGo_cons (k : Nat) (p x : α) (t : List α) :
    yesNoGo k p (x :: t) =
      if leadCount x t + 1 < k ∧ x ≠ p then
        List.replicate (leadCount x t + 1) p ++ yesNoGo k p (dropRun x t)
      else
        List.replicate (leadCount x t + 1) x ++ yesNoGo k x (dropRun x t) := by
  rw [yesNoGo]
  rfl

theorem blocksOk_dropRun (k : Nat) (p : α) :
    ∀ l : List α, blocksOk k p l = true → blocksOk k p (dropRun p l) = true := by
  intro l h
  cases l with
  | nil => simpa [dropRun, leadCount] using h
  | cons x t =>
      by_cases hx : x = p
      · subst hx
        rw [blocksOk_cons] at h
        rw [dropRun_cons_eq]
        exact (Bool.and_eq_true_iff.mp h).2
      · rwa [dropRun_cons_ne p x t hx]

theorem blocksOk_replicate_append (k : Nat) (p : α) (o : List α)
    (h : blocksOk k p o = true) :
    ∀ c : Nat, blocksOk k p (List.replicate c p ++ o) = true
  | 0 => by simpa using h
  | c + 1 => by
      rw [List.replicate_succ, List.cons_append, blocksOk_cons,
        dropRun_replicate_append]
      simp [blocksOk_dropRun k p o h]

theorem yesNoGo_blocksOk (k : Nat) :
    ∀ (l : List α) (p : α), blocksOk k p (yesNoGo k p l) = true
  | [], _ => by simp [yesNoGo, blocksOk]
  | x :: t, p => by
      rw [yesNoGo_cons]
      by_cases hc : leadCount x t + 1 < k ∧ x ≠ p
      · rw [if_pos hc]
        have ih := yesNoGo_blocksOk k (dropRun x t) p
        exact blocksOk_replicate_append k p _ ih _
      · rw [if_neg hc]
        have ih := yesNoGo_blocksOk k (dropRun x t) x
        rw [List.replicate_succ, List.cons_append, blocksOk_cons,
          leadCount_replicate_append, dropRun_replicate_append]
        have h1 : (decide (x = p) ||
            decide (k ≤ 1 + (leadCount x t + leadCount x (yesNoGo k x (dropRun x t))))) = true := by
          by_cases hp : x = p
          · simp [hp]
          · have hk : k ≤ leadCount x t + 1 := by
              rcases Nat.lt_or_ge (leadCount x t + 1) k with h | h
              · exact absurd ⟨h, hp⟩ hc
              · exact h
            simp only [Bool.or_eq_true, decide_eq_true_eq]
            right
            omega
        rw [h1]
        simp [blocksOk_dropRun k x _ ih]
termination_by l => l.length
decreasing_by
  all_goals simp [dropRun]
  all_goals omega

theorem yesNoGo_fixed (k : Nat) :
    ∀ (l : List α) (p : α), blocksOk k p l = true → yesNoGo k p l = l
  | [], _, _ => by rw [yesNoGo]
  | x :: t, p, h => by
      rw [blocksOk_cons] at h
      have h1 := (Bool.and_eq_true_iff.mp h).1
      have h2 := (Bool.and_eq_true_iff.mp h).2
      rw [yesNoGo_cons]
      have hcond : ¬ (leadCount x t + 1 < k ∧ x ≠ p) := by
        simp only [Bool.or_eq_true, decide_eq_true_eq] at h1
        rcases h1 with h1 | h1
        · exact fun hc => hc.2 h1
        · exact fun hc => by omega
      rw [if_neg hcond, yesNoGo_fixed k (dropRun x t) x h2]
      rw [List.replicate_succ, List.cons_append, runDecomp]
termination_by l => l.length
decreasing_by
  simp [dropRun]
  omega

end BlocksOk

/-! ### Block-structure predicates for spike removal -/

section SpikeInv

variable [DecidableEq α]

/-- Parsing maximal runs: every run that is not the final run has length at
least `k`.  Applied to the part of a sequence after its first run, this says
that no properly internal short run remains. -/
def spikeTailOk (k : Nat) : List α → Bool
  | [] => true
  | x :: t =>
      ((dropRun x t).isEmpty || decide (k ≤ 1 + leadCount x t)) &&
        spikeTailOk k (dropRun x t)
termination_by l => l.length
decreasing_by
  simp [dropRun]
  omega

/-- No maximal run other than the first and the last is shorter than `k`. -/
def spikeOkTop (k : Nat) : List α → Bool
  | [] => true
  | x :: t => spikeTailOk k (dropRun x t)

/-- Invariant maintained along the output of `spikeGo` relative to the
carried previous corrected value `p`: a run may be short only when it merges
with `p`, is the final run, or is at the very start (`p = none`). -/
def spikeInv (k : Nat) (p : Option α) : List α → Bool
  | [] => true
  | x :: t =>
      (decide (p = none) || decide (p = some x) || (dropRun x t).isEmpty ||
        decide (k ≤ 1 + leadCount x t)) && spikeInv k (some x) (dropRun x t)
termination_by l => l.length
decreasing_by
  simp [dropRun]
  omega

theorem spikeTailOk_cons (k : Nat) (x : α) (t : List α) :
    spikeTailOk k (x :: t) =
      (((dropRun x t).isEmpty || decide (k ≤ 1 + leadCount x t)) &&
        spikeTailOk k (dropRun x t)) := by
  rw [spikeTailOk]

theorem spikeInv_cons (k : Nat) (p : Option α) (x : α) (t : List α) :
    spikeInv k p (x :: t) =
      ((decide (p = none) || decide (p = some x) || (dropRun x t).isEmpty ||
        decide (k ≤ 1 + leadCount x t)) && spikeInv k (some x) (dropRun x t)) := by
  rw [spikeInv]

theorem spikeGo_cons (k : Nat) (p : Option α) (x : α) (t : List α) :
    spikeGo k p (x :: t) =
      if x ≠ p.getD x ∧ x ≠ (dropRun x t).head?.getD x ∧ leadCount x t + 1 < k then
        List.replicate (leadCount x t + 1) (p.getD x) ++
          spikeGo k (some (p.getD x)) (dropRun x t)
      else
        List.replicate (leadCount x t + 1) x ++ spikeGo k (some x) (dropRun x t) := by
  rw [spikeGo]
  rfl

theorem spikeInv_dropRun (k : Nat) (x : α) :
    ∀ l : List α, spikeInv k (some x) l = true →
      spikeInv k (some x) (dropRun x l) = true := by
  intro l h
  cases l with
  | nil => simpa [dropRun, leadCount] using h
  | cons y t =>
      by_cases hy : y = x
      · subst hy
        rw [spikeInv_cons] at h
        rw [dropRun_cons_eq]
        exact (Bool.and_eq_true_iff.mp h).2
      · rwa [dropRun_cons_ne x y t hy]

theorem spikeGo_none_cons (k : Nat) (x : α) (t : List α) :
    spikeGo k none (x :: t) =
      List.replicate (leadCount x t + 1) x ++ spikeGo k (some x) (dropRun x t) := by
  rw [spikeGo_cons]
  simp

/-- The output of `spikeGo` satisfies the run invariant. -/
theorem spikeGo_inv (k : Nat) :
    ∀ (l : List α) (p : Option α), spikeInv k p (spikeGo k p l) = true
  | [], _ => by simp [spikeGo, spikeInv]
  | x :: t, p => by
      rw [spikeGo_cons]
      by_cases hcond : x ≠ p.getD x ∧ x ≠ (dropRun x t).head?.getD x ∧ leadCount x t + 1 < k
      · rw [if_pos hcond]
        obtain ⟨hpv, -, -⟩ := hcond
        have hp : ∃ q, p = some q := by
          cases p with
          | none => simp at hpv
          | some q => exact ⟨q, rfl⟩
        obtain ⟨q, rfl⟩ := hp
        simp only [Option.getD_some] at hpv ⊢
        have ih := spikeGo_inv k (dropRun x t) (some q)
        rw [List.replicate_succ, List.cons_append, spikeInv_cons,
          dropRun_replicate_append]
        simp [spikeInv_dropRun k q _ ih]
      · rw [if_neg hcond]
        have ih := spikeGo_inv k (dropRun x t) (some x)
        rw [List.replicate_succ, List.cons_append, spikeInv_cons,
          leadCount_replicate_append, dropRun_replicate_append]
        have h1 : (decide (p = none) || decide (p = some x) ||
            (dropRun x (spikeGo k (some x) (dropRun x t))).isEmpty ||
            decide (k ≤ 1 + (leadCount x t +
              leadCount x (spikeGo k (some x) (dropRun x t))))) = true := by
          push_neg at hcond
          by_cases hpv : x = p.getD x
          · cases p with
            | none => simp
            | some q =>
                simp only [Option.getD_some] at hpv
                simp [← hpv]
          · have h2 := hcond hpv
            by_cases hnv : x = (dropRun x t).head?.getD x
            · cases hrest : dropRun x t with
              | nil => simp [spikeGo, dropRun, leadCount]
              | cons y r =>
                  have hy : y ≠ x := dropRun_head_ne x t y (by simp [hrest])
                  rw [hrest] at hnv
                  simp only [List.head?_cons, Option.getD_some] at hnv
                  exact absurd hnv.symm hy
            · have hk : k ≤ leadCount x t + 1 := h2 hnv
              simp only [Bool.or_eq_true, decide_eq_true_eq]
              right
              omega
        rw [h1]
        simp [spikeInv_dropRun k x _ ih]
termination_by l => l.length
decreasing_by
  all_goals simp [dropRun]
  all_goals omega

/-- From the invariant relative to a concrete previous value, the suffix after
dropping runs merging with it has no properly internal short run. -/
theorem spikeInv_tailOk (k : Nat) :
    ∀ (l : List α) (w : α), spikeInv k (some w) l = true →
      spikeTailOk k (dropRun w l) = true
  | [], _, _ => by simp [dropRun, leadCount, spikeTailOk]
  | x :: t, w, h => by
      rw [spikeInv_cons] at h
      have h1 := (Bool.and_eq_true_iff.mp h).1
      have h2 := (Bool.and_eq_true_iff.mp h).2
      by_cases hx : x = w
      · subst hx
        rw [dropRun_cons_eq]
        have := spikeInv_tailOk k (dropRun x t) x h2
        rwa [dropRun_dropRun] at this
      · rw [dropRun_cons_ne w x t (by exact hx), spikeTailOk_cons]
        have hfirst : ((dropRun x t).isEmpty ||
            decide (k ≤ 1 + leadCount x t)) = true := by
          simp only [Bool.or_eq_true, decide_eq_true_eq] at h1 ⊢
          rcases h1 with ((h1 | h1) | h1) | h1
          · simp at h1
          · simp only [Option.some.injEq] at h1
            exact absurd h1.symm hx
          · exact Or.inl h1
          · exact Or.inr h1
        rw [hfirst]
        have := spikeInv_tailOk k (dropRun x t) x h2
        rwa [dropRun_dropRun] at this
termination_by l => l.length
decreasing_by
  all_goals simp [dropRun]
  all_goals omega

/-- A sequence whose runs after the head run are all long or final is left
unchanged by the spike-removal loop. -/
theorem spikeGo_fixed (k : Nat) :
    ∀ (l : List α) (w : α), spikeTailOk k l = true →
      (∀ y, l.head? = some y → y ≠ w) → spikeGo k (some w) l = l
  | [], _, _, _ => by rw [spikeGo]
  | x :: t, w, h, hh => by
      rw [spikeTailOk_cons] at h
      have h1 := (Bool.and_eq_true_iff.mp h).1
      have h2 := (Bool.and_eq_true_iff.mp h).2
      have hxw : x ≠ w := hh x rfl
      rw [spikeGo_cons]
      have hcond : ¬ (x ≠ (some w).getD x ∧
          x ≠ (dropRun x t).head?.getD x ∧ leadCount x t + 1 < k) := by
        simp only [Option.getD_some, Bool.or_eq_true, decide_eq_true_eq] at h1 ⊢
        rcases h1 with h1 | h1
        · intro hc
          cases hrest : dropRun x t with
          | nil => exact hc.2.1 (by simp [hrest])
          | cons y r => rw [hrest] at h1; simp at h1
        · intro hc
          omega
      rw [if_neg hcond]
      have ih : spikeGo k (some x) (dropRun x t) = dropRun x t := by
        refine spikeGo_fixed k (dropRun x t) x h2 ?_
        intro y hy
        exact dropRun_head_ne x t y hy
      rw [ih, List.replicate_succ, List.cons_append, runDecomp]
termination_by l => l.length
decreasing_by
  simp [dropRun]
  omega

/-- After one pass of spike removal no properly internal short run remains. -/
theorem correct_number_of_lanes_spikeOk (k : Nat) (l : List α) :
    spikeOkTop k (correct_number_of_lanes l k) = true := by
  cases l with
  | nil => simp [correct_number_of_lanes, spikeGo, spikeOkTop]
  | cons x t =>
      rw [correct_number_of_lanes, spikeGo_none_cons, List.replicate_succ,
        List.cons_append, spikeOkTop, dropRun_replicate_append]
      have ih := spikeGo_inv k (dropRun x t) (some x)
      exact spikeInv_tailOk k _ x ih

/-- Sequences without properly internal short runs are fixed points. -/
theorem correct_number_of_lanes_fixed (k : Nat) (l : List α)
    (h : spikeOkTop k l = true) : correct_number_of_lanes l k = l := by
  cases l with
  | nil => simp [correct_number_of_lanes, spikeGo]
  | cons x t =>
      rw [spikeOkTop] at h
      rw [correct_number_of_lanes, spikeGo_none_cons]
      have := spikeGo_fixed k (dropRun x t) x h
        (fun y hy => dropRun_head_ne x t y hy)
      rw [this, List.replicate_succ, List.cons_append, runDecomp]

end SpikeInv

/-! ### Block-structure predicates for NaN-tolerant blip removal -/

section HpInv

variable [DecidableEq α]

/-- Whether a list of possibly-missing cells starts with a present value. -/
def headReal : List (Option α) → Bool
  | some _ :: _ => true
  | _ => false

/-- Parsing a possibly-missing sequence into maximal runs of present values:
`ex = true` means the run about to be parsed is exempt from the length
requirement (it is at the start or is preceded by a missing cell); a
non-exempt run must reach length `k` unless its successor cell is missing or
absent. -/
def hpOkAux (k : Nat) : Bool → List (Option α) → Bool
  | _, [] => true
  | _, none :: t => hpOkAux k true t
  | ex, some v :: t =>
      (ex || !headReal (dropRun (some v) t) ||
        decide (k ≤ 1 + leadCount (some v) t)) &&
        hpOkAux k false (dropRun (some v) t)
termination_by _ l => l.length
decreasing_by
  all_goals simp [dropRun]
  all_goals omega

/-- Invariant along the output of `hpGo` relative to the carried previous
cell `p`: a present run may be short only when the previous cell is absent or
missing, when it merges with the previous corrected value, or when its
successor cell is missing or absent. -/
def hpInv (k : Nat) (p : Option (Option α)) : List (Option α) → Bool
  | [] => true
  | none :: t => hpInv k (some none) t
  | some v :: t =>
      (decide (p = none) || decide (p = some none) || decide (p = some (some v)) ||
        !headReal (dropRun (some v) t) ||
        decide (k ≤ 1 + leadCount (some v) t)) &&
        hpInv k (some (some v)) (dropRun (some v) t)
termination_by l => l.length
decreasing_by
  all_goals simp [dropRun]
  all_goals omega

theorem hpOkAux_nil (k : Nat) (ex : Bool) : hpOkAux (α := α) k ex [] = true := by
  rw [hpOkAux]

theorem hpOkAux_none_cons (k : Nat) (ex : Bool) (t : List (Option α)) :
    hpOkAux k ex (none :: t) = hpOkAux k true t := by
  rw [hpOkAux]

theorem hpOkAux_some_cons (k : Nat) (ex : Bool) (v : α) (t : List (Option α)) :
    hpOkAux k ex (some v :: t) =
      ((ex || !headReal (dropRun (some v) t) ||
        decide (k ≤ 1 + leadCount (some v) t)) &&
        hpOkAux k false (dropRun (some v) t)) := by
  rw [hpOkAux]

theorem hpInv_nil (k : Nat) (p : Option (Option α)) : hpInv k p [] = true := by
  rw [hpInv]

theorem hpInv_none_cons (k : Nat) (p : Option (Option α)) (t : List (Option α)) :
    hpInv k p (none :: t) = hpInv k (some none) t := by
  rw [hpInv]

theorem hpInv_some_cons (k : Nat) (p : Option (Option α)) (v : α) (t : List (Option α)) :
    hpInv k p (some v :: t) =
      ((decide (p = none) || decide (p = some none) || decide (p = some (some v)) ||
        !headReal (dropRun (some v) t) ||
        decide (k ≤ 1 + leadCount (some v) t)) &&
        hpInv k (some (some v)) (dropRun (some v) t)) := by
  rw [hpInv]

theorem hpGo_nil (k : Nat) (p : Option (Option α)) : hpGo k p [] = [] := by
  rw [hpGo]

theorem hpGo_none_cons (k : Nat) (p : Option (Option α)) (t : List (Option α)) :
    hpGo k p (none :: t) = none :: hpGo k (some none) t := by
  rw [hpGo]

theorem hpGo_some_cons (k : Nat) (p : Option (Option α)) (v : α) (t : List (Option α)) :
    hpGo k p (some v :: t) =
      if some v ≠ (some ((p.getD (some v)).getD v) : Option α) ∧
          some v ≠ (some (((dropRun (some v) t).head?.getD (some v)).getD v) : Option α) ∧
          leadCount (some v) t + 1 < k then
        List.replicate (leadCount (some v) t + 1) (some ((p.getD (some v)).getD v)) ++
          hpGo k (some (some ((p.getD (some v)).getD v))) (dropRun (some v) t)
      else
        List.replicate (leadCount (some v) t + 1) (some v) ++
          hpGo k (some (some v)) (dropRun (some v) t) := by
  rw [hpGo]
  rfl

/-- When the previous cell is absent or missing, the run at hand is never
flipped: the neighbour lookup substitutes the run's own value. -/
theorem hpGo_start_cons (k : Nat) (q : Option (Option α)) (v : α) (t : List (Option α))
    (hq : q = none ∨ q = some none) :
    hpGo k q (some v :: t) =
      List.replicate (leadCount (some v) t + 1) (some v) ++
        hpGo k (some (some v)) (dropRun (some v) t) := by
  rw [hpGo_some_cons]
  rcases hq with rfl | rfl <;> simp

theorem hpInv_dropRun (k : Nat) (v : α) :
    ∀ l : List (Option α), hpInv k (some (some v)) l = true →
      hpInv k (some (some v)) (dropRun (some v) l) = true := by
  intro l h
  cases l with
  | nil => simp [dropRun, leadCount, hpInv_nil]
  | cons y t =>
      by_cases hy : y = some v
      · subst hy
        rw [hpInv_some_cons] at h
        rw [dropRun_cons_eq]
        exact (Bool.and_eq_true_iff.mp h).2
      · rwa [dropRun_cons_ne (some v) y t hy]

/-- The output of `hpGo` satisfies the run invariant. -/
theorem hpGo_inv (k : Nat) :
    ∀ (l : List (Option α)) (p : Option (Option α)), hpInv k p (hpGo k p l) = true
  | [], _ => by rw [hpGo_nil, hpInv_nil]
  | none :: t, p => by
      rw [hpGo_none_cons, hpInv_none_cons]
      exact hpGo_inv k t (some none)
  | some v :: t, p => by
      rw [hpGo_some_cons]
      by_cases hcond : some v ≠ (some ((p.getD (some v)).getD v) : Option α) ∧
          some v ≠ (some (((dropRun (some v) t).head?.getD (some v)).getD v) : Option α) ∧
          leadCount (some v) t + 1 < k
      · rw [if_pos hcond]
        obtain ⟨hpv, -, -⟩ := hcond
        have hp : ∃ w, p = some (some w) ∧ w ≠ v := by
          cases p with
          | none => simp at hpv
          | some o =>
              cases o with
              | none => simp at hpv
              | some w =>
                  refine ⟨w, rfl, ?_⟩
                  intro hvw
                  exact hpv (by simp [hvw])
        obtain ⟨w, rfl, hwv⟩ := hp
        simp only [Option.getD_some] at hpv ⊢
        have ih := hpGo_inv k (dropRun (some v) t) (some (some w))
        rw [List.replicate_succ, List.cons_append, hpInv_some_cons,
          dropRun_replicate_append]
        simp [hpInv_dropRun k w _ ih]
      · rw [if_neg hcond]
        have ih := hpGo_inv k (dropRun (some v) t) (some (some v))
        rw [List.replicate_succ, List.cons_append, hpInv_some_cons,
          leadCount_replicate_append, dropRun_replicate_append]
        have h1 : (decide (p = none) || decide (p = some none) ||
            decide (p = some (some v)) ||
            !headReal (dropRun (some v) (hpGo k (some (some v)) (dropRun (some v) t))) ||
            decide (k ≤ 1 + (leadCount (some v) t +
              leadCount (some v) (hpGo k (some (some v)) (dropRun (some v) t))))) = true := by
          push_neg at hcond
          by_cases hpv : some v = (some ((p.getD (some v)).getD v) : Option α)
          · cases p with
            | none => simp
            | some o =>
                cases o with
                | none => simp
                | some w =>
                    simp only [Option.getD_some, Option.some.injEq] at hpv
                    simp [← hpv]
          · have h2 := hcond hpv
            by_cases hnv : some v =
                (some (((dropRun (some v) t).head?.getD (some v)).getD v) : Option α)
            · cases hrest : dropRun (some v) t with
              | nil => simp [hpGo_nil, dropRun, leadCount, headReal]
              | cons y r =>
                  cases y with
                  | none =>
                      rw [hpGo_none_cons]
                      simp [dropRun, leadCount, headReal]
                  | some u =>
                      have hy : (some u : Option α) ≠ some v :=
                        dropRun_head_ne (some v) t (some u) (by simp [hrest])
                      rw [hrest] at hnv
                      simp only [List.head?_cons, Option.getD_some,
                        Option.some.injEq] at hnv
                      exact absurd (by simp [hnv] : (some u : Option α) = some v) hy
            · have hk : k ≤ leadCount (some v) t + 1 := h2 hnv
              simp only [Bool.or_eq_true, decide_eq_true_eq]
              right
              omega
        rw [h1]
        simp [hpInv_dropRun k v _ ih]
termination_by l => l.length
decreasing_by
  all_goals simp [dropRun]
  all_goals omega

/-- From the invariant, the output satisfies the run-length property: mode
`none` is used after a missing previous cell (next run exempt), mode
`some w` after a present previous corrected value `w`. -/
theorem hpInv_to_ok (k : Nat) :
    ∀ (l : List (Option α)) (p : Option α),
      hpInv k (some p) l = true →
        hpOkAux k (decide (p = none))
          (match p with
           | none => l
           | some w => dropRun (some w) l) = true
  | [], p, _ => by
      cases p with
      | none => rw [hpOkAux_nil]
      | some w =>
          show hpOkAux k false (dropRun (some w) []) = true
          simp [dropRun, leadCount, hpOkAux_nil]
  | none :: t, p, h => by
      have hnext : hpInv k (some none) t = true := by
        cases p with
        | none => rwa [hpInv_none_cons] at h
        | some w => rwa [hpInv_none_cons] at h
      have ih : hpOkAux k true t = true := hpInv_to_ok k t none hnext
      cases p with
      | none =>
          show hpOkAux k true (none :: t) = true
          rwa [hpOkAux_none_cons]
      | some w =>
          show hpOkAux k false (dropRun (some w) (none :: t)) = true
          rwa [dropRun_cons_ne (some w) none t (by simp), hpOkAux_none_cons]
  | some v :: t, p, h => by
      cases p with
      | none =>
          rw [hpInv_some_cons] at h
          have h2 := (Bool.and_eq_true_iff.mp h).2
          have ih : hpOkAux k false (dropRun (some v) (dropRun (some v) t)) = true :=
            hpInv_to_ok k (dropRun (some v) t) (some v) h2
          rw [dropRun_dropRun] at ih
          show hpOkAux k true (some v :: t) = true
          rw [hpOkAux_some_cons]
          simpa using ih
      | some w =>
          by_cases hv : v = w
          · subst hv
            rw [hpInv_some_cons] at h
            have h2 := (Bool.and_eq_true_iff.mp h).2
            have ih : hpOkAux k false (dropRun (some v) (dropRun (some v) t)) = true :=
              hpInv_to_ok k (dropRun (some v) t) (some v) h2
            rw [dropRun_dropRun] at ih
            show hpOkAux k false (dropRun (some v) (some v :: t)) = true
            rwa [dropRun_cons_eq]
          · rw [hpInv_some_cons] at h
            have h1 := (Bool.and_eq_true_iff.mp h).1
            have h2 := (Bool.and_eq_true_iff.mp h).2
            have ih : hpOkAux k false (dropRun (some v) (dropRun (some v) t)) = true :=
              hpInv_to_ok k (dropRun (some v) t) (some v) h2
            rw [dropRun_dropRun] at ih
            show hpOkAux k false (dropRun (some w) (some v :: t)) = true
            rw [dropRun_cons_ne (some w) (some v) t (by simp [hv]),
              hpOkAux_some_cons]
            have hfirst : ((false : Bool) ||
                !headReal (dropRun (some v) t) ||
                decide (k ≤ 1 + leadCount (some v) t)) = true := by
              simp only [Bool.or_eq_true, decide_eq_true_eq] at h1 ⊢
              rcases h1 with ((((h1 | h1) | h1) | h1)) | h1
              · simp at h1
              · simp at h1
              · simp only [Option.some.injEq] at h1
                exact absurd h1.symm hv
              · exact Or.inl (Or.inr h1)
              · exact Or.inr h1
            rw [hfirst]
            simpa using ih
termination_by l => l.length
decreasing_by
  all_goals simp [dropRun]
  all_goals omega

/-- Sequences satisfying the run-length property are fixed points of the
blip-removal loop: the first component handles a start-of-scene or
missing previous cell, the second a present previous corrected value. -/
theorem hpGo_fp (k : Nat) :
    ∀ l : List (Option α),
      (∀ q : Option (Option α), (q = none ∨ q = some none) →
        hpOkAux k true l = true → hpGo k q l = l) ∧
      (∀ w : α, hpOkAux k false l = true → l.head? ≠ some (some w) →
        hpGo k (some (some w)) l = l)
  | [] => by
      constructor
      · intro q _ _
        rw [hpGo_nil]
      · intro w _ _
        rw [hpGo_nil]
  | none :: t => by
      constructor
      · intro q hq h
        rw [hpOkAux_none_cons] at h
        rw [hpGo_none_cons, (hpGo_fp k t).1 (some none) (Or.inr rfl) h]
      · intro w h _
        rw [hpOkAux_none_cons] at h
        rw [hpGo_none_cons, (hpGo_fp k t).1 (some none) (Or.inr rfl) h]
  | some v :: t => by
      have hkeep : ∀ h2 : hpOkAux k false (dropRun (some v) t) = true,
          hpGo k (some (some v)) (dropRun (some v) t) = dropRun (some v) t := by
        intro h2
        refine (hpGo_fp k (dropRun (some v) t)).2 v h2 ?_
        intro hhead
        cases hr : (dropRun (some v) t).head? with
        | none => rw [hr] at hhead; exact Option.noConfusion hhead
        | some y =>
            have := dropRun_head_ne (some v) t y hr
            rw [hr] at hhead
            exact this (by simpa using hhead)
      constructor
      · intro q hq h
        rw [hpOkAux_some_cons] at h
        have h2 := (Bool.and_eq_true_iff.mp h).2
        rw [hpGo_start_cons k q v t hq, hkeep h2, List.replicate_succ,
          List.cons_append, runDecomp]
      · intro w h hhead
        have hvw : v ≠ w := by
          intro hv
          exact hhead (by simp [hv])
        rw [hpOkAux_some_cons] at h
        have h1 := (Bool.and_eq_true_iff.mp h).1
        have h2 := (Bool.and_eq_true_iff.mp h).2
        rw [hpGo_some_cons]
        have hcond : ¬ (some v ≠ (some (((some (some w) : Option (Option α)).getD
              (some v)).getD v) : Option α) ∧
            some v ≠ (some (((dropRun (some v) t).head?.getD (some v)).getD v) : Option α) ∧
            leadCount (some v) t + 1 < k) := by
          simp only [Bool.or_eq_true, Bool.not_eq_true', decide_eq_true_eq] at h1
          intro hc
          obtain ⟨-, hnv, hlen⟩ := hc
          rcases h1 with (h1 | h1) | h1
          · simp at h1
          · cases hr : dropRun (some v) t with
            | nil => exact hnv (by simp [hr])
            | cons y r =>
                cases y with
                | none => exact hnv (by simp [hr])
                | some u => rw [hr] at h1; simp [headReal] at h1
          · omega
        rw [if_neg hcond, hkeep h2, List.replicate_succ, List.cons_append,
          runDecomp]
termination_by l => l.length
decreasing_by
  all_goals simp [dropRun]
  all_goals omega

/-- After one pass of blip removal the run-length property holds. -/
theorem correct_horizontal_plane_ok (k : Nat) (l : List (Option α)) :
    hpOkAux k true (correct_horizontal_plane l k) = true := by
  cases l with
  | nil => rw [correct_horizontal_plane, hpGo_nil, hpOkAux_nil]
  | cons c t =>
      cases c with
      | none =>
          rw [correct_horizontal_plane, hpGo_none_cons, hpOkAux_none_cons]
          have := hpInv_to_ok k (hpGo k (some none) t) none
            (hpGo_inv k t (some none))
          simpa using this
      | some v =>
          rw [correct_horizontal_plane,
            hpGo_start_cons k none v t (Or.inl rfl), List.replicate_succ,
            List.cons_append, hpOkAux_some_cons, dropRun_replicate_append]
          have := hpInv_to_ok k (hpGo k (some (some v)) (dropRun (some v) t))
            (some v) (hpGo_inv k (dropRun (some v) t) (some (some v)))
          simpa using this

/-- Sequences satisfying the run-length property are fixed points of
blip removal. -/
theorem correct_horizontal_plane_fixed (k : Nat) (l : List (Option α))
    (h : hpOkAux k true l = true) : correct_horizontal_plane l k = l :=
  (hpGo_fp k l).1 none (Or.inl rfl) h

end HpInv

/-! ### Block-level reference formulations of spike removal (claim C3) -/

section Blockwise

variable [DecidableEq α]

/-- Run-length encoding of a sequence: the maximal runs of the original
sequence with their lengths. -/
def toBlocks : List α → List (α × Nat)
  | [] => []
  | x :: t => (x, leadCount x t + 1) :: toBlocks (dropRun x t)
termination_by l => l.length
decreasing_by
  simp [dropRun]
  omega

/-- Reference formulation of what `correct_number_of_lanes` actually does:
the maximal runs of the original sequence are judged left to right, each
against the corrected predecessor value (carried through earlier overwrites)
and the original successor value, and an overwritten run takes the corrected
predecessor value. -/
def blockwiseSpike (k : Nat) (prev : Option α) : List (α × Nat) → List α
  | [] => []
  | (x, c) :: bs =>
      let pv := prev.getD x
      let nv := (bs.head?.map Prod.fst).getD x
      let w := if x ≠ pv ∧ x ≠ nv ∧ c < k then pv else x
      List.replicate c w ++ blockwiseSpike k (some w) bs

/-- Formulation of claim C3's words (`Modelled from the spec` for comparison
with the code): every run is judged against the ORIGINAL predecessor and
successor values, and an overwritten run takes the ORIGINAL predecessor
value — corrections never feed into later judgements. -/
def claimedSpike (k : Nat) (prev : Option α) : List (α × Nat) → List α
  | [] => []
  | (x, c) :: bs =>
      let pv := prev.getD x
      let nv := (bs.head?.map Prod.fst).getD x
      let w := if x ≠ pv ∧ x ≠ nv ∧ c < k then pv else x
      List.replicate c w ++ claimedSpike k (some x) bs

/-- Spike removal as claim C3 describes it. -/
def claimed_correct_number_of_lanes (s : List α) (k : Nat) : List α :=
  claimedSpike k none (toBlocks s)

theorem toBlocks_head_value : ∀ l : List α,
    ((toBlocks l).head?.map Prod.fst).getD d = l.head?.getD d
  | [] => by rw [toBlocks]; rfl
  | x :: t => by rw [toBlocks]; rfl

/-- The code's spike removal coincides with the blockwise reference
formulation. -/
theorem spikeGo_eq_blockwise (k : Nat) :
    ∀ (l : List α) (p : Option α), spikeGo k p l = blockwiseSpike k p (toBlocks l)
  | [], p => by rw [spikeGo, toBlocks]; rfl
  | x :: t, p => by
      rw [spikeGo_cons, toBlocks, blockwiseSpike]
      have hnv : ((toBlocks (dropRun x t)).head?.map Prod.fst).getD x =
          (dropRun x t).head?.getD x := toBlocks_head_value (dropRun x t)
      rw [hnv]
      by_cases hc : x ≠ p.getD x ∧ x ≠ (dropRun x t).head?.getD x ∧ leadCount x t + 1 < k
      · rw [if_pos hc, if_pos hc, spikeGo_eq_blockwise k (dropRun x t) (some (p.getD x))]
      · rw [if_neg hc, if_neg hc, spikeGo_eq_blockwise k (dropRun x t) (some x)]
termination_by l => l.length
decreasing_by
  all_goals simp [dropRun]
  all_goals omega

end Blockwise

/-! ### Claim theorems for the smoothers -/

/-- C5: for every sequence and threshold, the output of run-length smoothing
(`correct_yes_no_sequence` with `min_consecutive = k`) contains no maximal
block of length `< k` that differs from the corrected value of the element
immediately preceding the block, except possibly the block containing the
first element; and the first element itself is never modified. -/
theorem spec_c5_runlength_property [DecidableEq α] (s : List α) (k : Nat) :
    blocksOkTop k (correct_yes_no_sequence s k) = true ∧
    (correct_yes_no_sequence s k).head? = s.head? := by
  constructor
  · cases s with
    | nil => rfl
    | cons x t =>
        show blocksOk k x (yesNoGo k x t) = true
        exact yesNoGo_blocksOk k t x
  · cases s with
    | nil => rfl
    | cons x t => rfl

/-- C6: each of the three smoothers is idempotent — applying
`correct_yes_no_sequence`, `correct_number_of_lanes`, or
`correct_horizontal_plane` twice with the same threshold equals applying it
once. -/
theorem spec_c6_smoothers_idempotent [DecidableEq α] :
    (∀ (s : List α) (k : Nat),
      correct_yes_no_sequence (correct_yes_no_sequence s k) k =
        correct_yes_no_sequence s k) ∧
    (∀ (s : List α) (k : Nat),
      correct_number_of_lanes (correct_number_of_lanes s k) k =
        correct_number_of_lanes s k) ∧
    (∀ (s : List (Option α)) (k : Nat),
      correct_horizontal_plane (correct_horizontal_plane s k) k =
        correct_horizontal_plane s k) := by
  refine ⟨fun s k => ?_, fun s k => ?_, fun s k => ?_⟩
  · cases s with
    | nil => rfl
    | cons x t =>
        show x :: yesNoGo k x (yesNoGo k x t) = x :: yesNoGo k x t
        rw [yesNoGo_fixed k (yesNoGo k x t) x (yesNoGo_blocksOk k t x)]
  · exact correct_number_of_lanes_fixed k _ (correct_number_of_lanes_spikeOk k s)
  · exact correct_horizontal_plane_fixed k _ (correct_horizontal_plane_ok k s)

/-- C3 fails on the code: on `[1, 2, 1, 3, 1]` with threshold 3 the code
judges the middle `1` against the CORRECTED predecessor (already rewritten
to `1`), keeps it, and yields all ones, while the claim's
original-neighbour rule would rewrite that block to `2`. -/
theorem spec_c3_counterexample :
    correct_number_of_lanes [1, 2, 1, 3, 1] 3 = [1, 1, 1, 1, 1] ∧
    claimed_correct_number_of_lanes [1, 2, 1, 3, 1] 3 = [1, 1, 2, 1, 1] ∧
    correct_number_of_lanes [1, 2, 1, 3, 1] 3 ≠
      claimed_correct_number_of_lanes [1, 2, 1, 3, 1] 3 := by
  refine ⟨?_, ?_, ?_⟩
  · simp [correct_number_of_lanes, spikeGo, leadCount]
  · simp [claimed_correct_number_of_lanes, toBlocks, claimedSpike, dropRun, leadCount]
  · simp [correct_number_of_lanes, claimed_correct_number_of_lanes, toBlocks,
      claimedSpike, spikeGo, dropRun, leadCount]

/-- C3 amended: spike removal rewrites exactly the maximal runs of the
original sequence (no re-blocking) of length `< k` that differ from BOTH the
corrected predecessor value — the output value immediately before the run,
after earlier runs' overwrites — and the original successor value, replacing
them with that corrected predecessor value; runs touching a boundary use
their own value for the missing neighbour and are never overwritten on that
account. -/
theorem spec_c3_amended [DecidableEq α] (s : List α) (k : Nat) :
    correct_number_of_lanes s k = blockwiseSpike k none (toBlocks s) := by
  rw [correct_number_of_lanes, spikeGo_eq_blockwise]

/-! ### Missing-value behaviour of blip removal (claim C4) -/

section C4

variable [DecidableEq α]

theorem leadCount_nthD (x : α) (d : α) :
    ∀ (t : List α) (i : Nat), i < leadCount x t → nthD d t i = x
  | [], _, h => by simp [leadCount] at h
  | y :: t, i, h => by
      by_cases hy : y = x
      · subst hy
        cases i with
        | zero => rfl
        | succ i =>
            rw [nthD_cons_succ]
            exact leadCount_nthD y d t i (by rw [leadCount_cons_self] at h; omega)
      · rw [leadCount] at h
        simp [hy] at h

theorem leadCount_eq_zero_of_head (x : α) (l : List α) (h : l.head? ≠ some x) :
    leadCount x l = 0 := by
  cases l with
  | nil => rfl
  | cons y t =>
      have hy : y ≠ x := fun he => h (by simp [he])
      simp [leadCount, hy]

theorem nthD_dropRun (x d : α) :
    ∀ (t : List α) (i : Nat), nthD d t (leadCount x t + i) = nthD d (dropRun x t) i
  | [], i => by simp [leadCount, dropRun]
  | y :: t, i => by
      by_cases hy : y = x
      · subst hy
        rw [leadCount_cons_self, dropRun_cons_eq]
        have h1 : leadCount y t + 1 + i = (leadCount y t + i) + 1 := by omega
        rw [h1, nthD_cons_succ]
        exact nthD_dropRun y d t i
      · rw [leadCount_eq_zero_of_head x (y :: t) (by simp [hy]),
          dropRun_cons_ne x y t hy]
        simp

theorem hpGo_length (k : Nat) :
    ∀ (l : List (Option α)) (p : Option (Option α)), (hpGo k p l).length = l.length
  | [], p => by rw [hpGo_nil]
  | none :: t, p => by
      rw [hpGo_none_cons]
      simp [hpGo_length k t (some none)]
  | some v :: t, p => by
      rw [hpGo_some_cons]
      have hm := leadCount_le_length (α := Option α) (some v) t
      have hr : (dropRun (some v) t).length = t.length - leadCount (some v) t := by
        simp [dropRun]
      split
      · simp [hpGo_length k (dropRun (some v) t) _, hr]
        omega
      · simp [hpGo_length k (dropRun (some v) t) _, hr]
        omega
termination_by l => l.length
decreasing_by
  all_goals simp [dropRun]
  all_goals omega

/-- A cell of the blip-removal output is missing exactly when the input cell
is missing: missing cells are left untouched and present cells stay
present. -/
theorem hpGo_none_iff (k : Nat) (d0 : α) :
    ∀ (l : List (Option α)) (p : Option (Option α)) (j : Nat), j < l.length →
      (nthD (some d0) (hpGo k p l) j = none ↔ nthD (some d0) l j = none)
  | [], _, j, h => by simp at h
  | none :: t, p, 0, _ => by
      rw [hpGo_none_cons]
      exact Iff.rfl
  | none :: t, p, j + 1, h => by
      rw [hpGo_none_cons, nthD_cons_succ, nthD_cons_succ]
      exact hpGo_none_iff k d0 t (some none) j (by simpa using h)
  | some v :: t, p, j, h => by
      rw [hpGo_some_cons]
      have hm := leadCount_le_length (α := Option α) (some v) t
      have hlen : j < t.length + 1 := by simpa using h
      have hrhs : j < leadCount (some v) t + 1 →
          nthD (some d0) (some v :: t) j = some v := by
        intro hj
        cases j with
        | zero => rfl
        | succ i =>
            rw [nthD_cons_succ]
            exact leadCount_nthD (some v) (some d0) t i (by omega)
      have hrec : ∀ (w : α) (q : Option (Option α)),
          (nthD (some d0) (List.replicate (leadCount (some v) t + 1) (some w) ++
              hpGo k q (dropRun (some v) t)) j = none ↔
            nthD (some d0) (some v :: t) j = none) := by
        intro w q
        rcases Nat.lt_or_ge j (leadCount (some v) t + 1) with hj | hj
        · rw [nthD_append_left _ _ _ j (by simpa using hj), nthD_replicate _ _ _ j hj,
            hrhs hj]
          simp
        · obtain ⟨i, rfl⟩ : ∃ i, j = (leadCount (some v) t + 1) + i :=
            ⟨j - (leadCount (some v) t + 1), by omega⟩
          have hsplit : nthD (some d0)
              (List.replicate (leadCount (some v) t + 1) (some w) ++
                hpGo k q (dropRun (some v) t)) (leadCount (some v) t + 1 + i) =
              nthD (some d0) (hpGo k q (dropRun (some v) t)) i := by
            have := nthD_append_right (some d0)
              (List.replicate (leadCount (some v) t + 1) (some w))
              (hpGo k q (dropRun (some v) t)) i
            simpa using this
          rw [hsplit]
          have hrhs2 : nthD (some d0) (some v :: t) (leadCount (some v) t + 1 + i) =
              nthD (some d0) (dropRun (some v) t) i := by
            have h1 : leadCount (some v) t + 1 + i = (leadCount (some v) t + i) + 1 := by
              omega
            rw [h1, nthD_cons_succ]
            exact nthD_dropRun (some v) (some d0) t i
          rw [hrhs2]
          have hi : i < (dropRun (some v) t).length := by
            have : (dropRun (some v) t).length = t.length - leadCount (some v) t := by
              simp [dropRun]
            omega
          exact hpGo_none_iff k d0 (dropRun (some v) t) q i hi
      split
      · exact hrec _ _
      · exact hrec _ _
termination_by l => l.length
decreasing_by
  all_goals simp [dropRun]
  all_goals omega

/-- C4: blip removal leaves missing values alone and substitutes a block's
own value for a missing neighbour.  Part 1: the output has the input's
length.  Part 2: an output cell is missing exactly when the input cell is
(missing cells untouched, present cells never made missing).  Part 3: a
block whose predecessor cell is missing is never overwritten, whatever its
length.  Part 4: a block whose successor cell is missing is never
overwritten, whatever the previous state `p` and threshold. -/
theorem spec_c4_blip_missing (d0 : α) :
    (∀ (l : List (Option α)) (k : Nat),
      (correct_horizontal_plane l k).length = l.length) ∧
    (∀ (l : List (Option α)) (k j : Nat), j < l.length →
      (nthD (some d0) (correct_horizontal_plane l k) j = none ↔
        nthD (some d0) l j = none)) ∧
    (∀ (k c : Nat) (v : α) (l2 : List (Option α)), l2.head? ≠ some (some v) →
      correct_horizontal_plane (none :: (List.replicate (c + 1) (some v) ++ l2)) k =
        none :: (List.replicate (c + 1) (some v) ++ hpGo k (some (some v)) l2)) ∧
    (∀ (k : Nat) (p : Option (Option α)) (c : Nat) (v : α) (l2 : List (Option α)),
      hpGo k p (List.replicate (c + 1) (some v) ++ none :: l2) =
        List.replicate (c + 1) (some v) ++ hpGo k (some (some v)) (none :: l2)) := by
  refine ⟨fun l k => hpGo_length k l none,
    fun l k j hj => hpGo_none_iff k d0 l none j hj, ?_, ?_⟩
  · intro k c v l2 hl2
    rw [correct_horizontal_plane, hpGo_none_cons]
    congr 1
    rw [List.replicate_succ, List.cons_append,
      hpGo_start_cons k (some none) v _ (Or.inr rfl)]
    have hc0 : leadCount (some v) l2 = 0 := leadCount_eq_zero_of_head _ _ hl2
    have hdr : dropRun (some v) l2 = l2 := by simp [dropRun, hc0]
    rw [leadCount_replicate_append, dropRun_replicate_append, hc0, hdr]
    simp [List.replicate_succ]
  · intro k p c v l2
    rw [List.replicate_succ, List.cons_append, hpGo_some_cons]
    have hlead : leadCount (some v) (List.replicate c (some v) ++ none :: l2) = c := by
      rw [leadCount_replicate_append]
      simp [leadCount]
    have hdrop : dropRun (some v) (List.replicate c (some v) ++ none :: l2) =
        none :: l2 := by
      rw [dropRun_replicate_append, dropRun_cons_ne (some v) none l2 (by simp)]
    rw [hlead, hdrop]
    rw [if_neg (by simp)]
    rw [List.replicate_succ, List.cons_append]

/-- Witness for claim C4 at concrete inputs over `ℕ`-valued cells. -/
theorem spec_c4_blip_missing_witness :
    (nthD (some 0) (correct_horizontal_plane [some 3, none, some 5] 4) 1 = none ↔
      nthD (some 0) ([some 3, none, some 5] : List (Option ℕ)) 1 = none) ∧
    correct_horizontal_plane (none :: (List.replicate (0 + 1) (some 7) ++
        [some 9, some 9])) 4 =
      none :: (List.replicate (0 + 1) (some 7) ++
        hpGo 4 (some (some 7)) [some 9, some 9]) ∧
    hpGo 4 none (List.replicate (0 + 1) (some (7 : ℕ)) ++ none :: [some 9]) =
      List.replicate (0 + 1) (some 7) ++ hpGo 4 (some (some 7)) (none :: [some 9]) :=
  ⟨(spec_c4_blip_missing (0 : ℕ)).2.1 [some 3, none, some 5] 4 1 (by simp),
   (spec_c4_blip_missing (0 : ℕ)).2.2.1 4 0 7 [some 9, some 9] (by simp),
   (spec_c4_blip_missing (0 : ℕ)).2.2.2 4 none 0 7 [some 9]⟩

end C4

/-! ### Lane-count value normalization (`_convert_lane_value`, claim C10) -/

/-- A cell of the raw `NumberOfLanes` column: missing (`NaN`), a non-boolean
Python number (modelled as a rational; Python floats carrying `inf` are out
of scope of the claims), a boolean, or a string. -/
inductive LaneCell where
  | nan : LaneCell
  | num (q : ℚ) : LaneCell
  | boolean (b : Bool) : LaneCell
  | str (s : String) : LaneCell
deriving DecidableEq

/-- Result of `_convert_lane_value`: either an integer or the original value
returned unchanged. -/
inductive LaneRes where
  | asInt (n : ℤ) : LaneRes
  | unchanged (v : LaneCell) : LaneRes
deriving DecidableEq

/-- Python `int()` truncation toward zero of a rational. -/
def ratTrunc (q : ℚ) : ℤ :=
  if 0 ≤ q then q.num / (q.den : ℤ) else -((-q).num / ((-q).den : ℤ))

/-- The `LANE_MAP` table of `preprocess_normalize.py` (lines 56-63). -/
def LANE_MAP : List (String × ℤ) :=
  [("No", 1), ("1, No", 1), ("2 lanes", 2), ("2, No", 2), ("2, 3", 2),
   ("Two", 2), ("two", 2), ("3, No", 3), ("Multiple", 2), ("Multiple lanes", 2),
   ("Multiple lanes, No", 2), ("Yes", 2), ("1 or 2", 2), ("n/a, No", 1),
   ("N/A", 1), ("1.5", 1), ("1 lane", 1), ("1, Yes", 1), ("2, Yes", 2),
   ("Number of Lanes, No", 1), ("Four", 4), ("4, No", 4), ("1, Parking", 2),
   ("one", 1), ("3, including a motorcycle lane", 3), ("Three", 3)]

def laneMapLookup (s : String) : Option ℤ :=
  List.lookup s LANE_MAP

/-- Model of `_convert_lane_value` (lines 163-176).  `parseInt` stands for
Python `int(str(x))` on a string: `none` models a raised `ValueError`.
Booleans never match the map (its keys are strings) and are then parsed via
their `str()` form, which real `int()` rejects. -/
def _convert_lane_value (parseInt : String → Option ℤ) : LaneCell → LaneRes
  | .nan => .asInt 1
  | .num q => .asInt (ratTrunc q)
  | .boolean b =>
      match parseInt (if b then "True" else "False") with
      | some n => .asInt n
      | none => .unchanged (.boolean b)
  | .str s =>
      match laneMapLookup s with
      | some n => .asInt n
      | none =>
          match parseInt s with
          | some n => .asInt n
          | none => .unchanged (.str s)

/-- C10: lane normalization maps a missing value to the integer 1; truncates
non-boolean numbers to integers; follows the lane map on mapped strings; and
returns any other string unchanged when it does not parse as an integer
(and as the parsed integer when it does). -/
theorem spec_c10_lane_value (parseInt : String → Option ℤ) :
    (_convert_lane_value parseInt .nan = .asInt 1) ∧
    (∀ q : ℚ, _convert_lane_value parseInt (.num q) = .asInt (ratTrunc q)) ∧
    (∀ (s : String) (n : ℤ), laneMapLookup s = some n →
      _convert_lane_value parseInt (.str s) = .asInt n) ∧
    (∀ (s : String) (n : ℤ), laneMapLookup s = none → parseInt s = some n →
      _convert_lane_value parseInt (.str s) = .asInt n) ∧
    (∀ s : String, laneMapLookup s = none → parseInt s = none →
      _convert_lane_value parseInt (.str s) = .unchanged (.str s)) := by
  refine ⟨rfl, fun q => rfl, ?_, ?_, ?_⟩
  · intro s n h
    simp [_convert_lane_value, h]
  · intro s n h1 h2
    simp [_convert_lane_value, h1, h2]
  · intro s h1 h2
    simp [_convert_lane_value, h1, h2]

/-- Witness for claim C10 at concrete inputs. -/
theorem spec_c10_lane_value_witness :
    (_convert_lane_value (fun s => if s = "12" then some (12 : ℤ) else none)
        .nan = .asInt 1) ∧
    (_convert_lane_value (fun s => if s = "12" then some (12 : ℤ) else none)
        (.num (5 / 2)) = .asInt (ratTrunc (5 / 2))) ∧
    (_convert_lane_value (fun s => if s = "12" then some (12 : ℤ) else none)
        (.str "Multiple lanes") = .asInt 2) ∧
    (_convert_lane_value (fun s => if s = "12" then some (12 : ℤ) else none)
        (.str "12") = .asInt 12) ∧
    (_convert_lane_value (fun s => if s = "12" then some (12 : ℤ) else none)
        (.str "garbage") = .unchanged (.str "garbage")) :=
  ⟨(spec_c10_lane_value _).1,
   (spec_c10_lane_value _).2.1 (5 / 2),
   (spec_c10_lane_value _).2.2.1 "Multiple lanes" 2 (by decide),
   (spec_c10_lane_value _).2.2.2.1 "12" 12 (by decide) (by decide),
   (spec_c10_lane_value _).2.2.2.2 "garbage" (by decide) (by decide)⟩

/-! ### Magnitude-jump check (`flag_number_of_lanes`, claim C7)

One scene's lane values are modelled as a list of optional rationals: `none`
models a value on which Python `float()` raises, `some q` a value that
converts to the number `q`. -/

/-- Label computed for row `i` of a scene by the loop of
`flag_number_of_lanes` (lines 147-158): the row is compared with its
predecessor when both convert, and is left at the default on the first row
or when either conversion fails. -/
def laneLabelAt (vals : List (Option ℚ)) (i : Nat) : String :=
  if i = 0 then "OK"
  else
    match nthD none vals (i - 1), nthD none vals i with
    | some a, some b =>
        if 2 ≤ |b - a| then
          (if 0 < b - a then "Sudden addition of " else "Sudden reduction of ") ++
            toString (ratTrunc |b - a|) ++ " lanes"
        else "OK"
    | _, _ => "OK"

/-- The `<lanes_col>_check` column of one scene: the default column of "OK"
rows, each row written at most once by its own loop iteration. -/
def flag_number_of_lanes (vals : List (Option ℚ)) : List String :=
  tab (laneLabelAt vals) 0 vals.length

/-- C7: within a scene, a row after the first whose value and predecessor
value both convert to numbers is flagged exactly when the absolute
difference reaches 2, as an addition when positive and a reduction when
negative, with the truncated magnitude in the label; a row where either
conversion fails is silently left at "OK"; the first row is never
flagged. -/
theorem spec_c7_lane_jump (vals : List (Option ℚ)) (i : Nat) (hi : i < vals.length) :
    ((flag_number_of_lanes vals).length = vals.length) ∧
    (i = 0 → nthD "" (flag_number_of_lanes vals) i = "OK") ∧
    (∀ a b : ℚ, 1 ≤ i → nthD none vals (i - 1) = some a → nthD none vals i = some b →
      nthD "" (flag_number_of_lanes vals) i =
        (if 2 ≤ |b - a| then
          (if 0 < b - a then
            "Sudden addition of " ++ toString (ratTrunc |b - a|) ++ " lanes"
           else
            "Sudden reduction of " ++ toString (ratTrunc |b - a|) ++ " lanes")
         else "OK")) ∧
    ((nthD none vals (i - 1) = none ∨ nthD none vals i = none) →
      nthD "" (flag_number_of_lanes vals) i = "OK") := by
  have hnth : nthD "" (flag_number_of_lanes vals) i = laneLabelAt vals i := by
    have := nthD_tab (laneLabelAt vals) "" vals.length 0 i hi
    simpa [flag_number_of_lanes] using this
  refine ⟨tab_length _ 0 vals.length, ?_, ?_, ?_⟩
  · intro h0
    rw [hnth, laneLabelAt, if_pos h0]
  · intro a b h1 ha hb
    rw [hnth, laneLabelAt, if_neg (by omega), ha, hb]
    show (if 2 ≤ |b - a| then
        (if 0 < b - a then "Sudden addition of " else "Sudden reduction of ") ++
          toString (ratTrunc |b - a|) ++ " lanes"
      else "OK") = _
    by_cases h2 : 2 ≤ |b - a|
    · rw [if_pos h2, if_pos h2]
      by_cases h3 : 0 < b - a
      · rw [if_pos h3, if_pos h3, String.append_assoc]
      · rw [if_neg h3, if_neg h3, String.append_assoc]
    · rw [if_neg h2, if_neg h2]
  · intro hmiss
    rw [hnth, laneLabelAt]
    by_cases h0 : i = 0
    · rw [if_pos h0]
    · rw [if_neg h0]
      rcases hmiss with h | h
      · rw [h]
      · rw [h]
        cases nthD none vals (i - 1) <;> rfl

/-- Witness for claim C7: a jump from 2 to 5 lanes is flagged as a sudden
addition of 3 lanes, and a row whose predecessor fails conversion stays
"OK". -/
theorem spec_c7_lane_jump_witness :
    nthD "" (flag_number_of_lanes [some 2, some 5]) 1 = "Sudden addition of 3 lanes" ∧
    nthD "" (flag_number_of_lanes [none, some 5]) 1 = "OK" := by
  constructor
  · have h := (spec_c7_lane_jump [some 2, some 5] 1 (by simp)).2.2.1 2 5
      (by omega) rfl rfl
    rw [h]
    have habs : |(5 : ℚ) - 2| = 3 := by norm_num
    rw [habs]
    norm_num
    rfl
  · exact (spec_c7_lane_jump [none, some 5] 1 (by simp)).2.2.2 (Or.inl rfl)

/-! ### List-length pairing check (`safe_list_len` / `check_signs_time_pairs`,
claim C8)

A cell is an actual Python list, tuple or set (with its length), a missing
value, or any other value, carried as its stripped string form.  The two
parsers stand for `json.loads` and `ast.literal_eval` on that string:
`none` models a raised exception, `some none` a successful parse to a
non-list, `some (some n)` a successful parse to a list of length `n`.  The
embedded functions are total: no exception escapes the check. -/

inductive PyCell where
  | pylist (n : Nat)
  | pytuple (n : Nat)
  | pyset (n : Nat)
  | na
  | raw (s : String)
deriving DecidableEq

/-- Model of `safe_list_len` (lines 42-62): length of a real list/tuple/set,
`-1` on a missing value, and for anything else a JSON parse of the string
form, falling back to a literal parse only when the JSON parse raises; a
successful parse of a non-list yields `-1`, as does a double failure. -/
def safe_list_len (jsonLoads litEval : String → Option (Option Nat)) : PyCell → Int
  | .pylist n => n
  | .pytuple n => n
  | .pyset n => n
  | .na => -1
  | .raw s =>
      match jsonLoads s with
      | some (some n) => n
      | some none => -1
      | none =>
          match litEval s with
          | some (some n) => n
          | some none => -1
          | none => -1

/-- Row label of `check_signs_time_pairs` (lines 179-185) for one
(signs, times) pair. -/
def pairCheckLabel (jsonLoads litEval : String → Option (Option Nat))
    (sv tv : PyCell) : String :=
  let a := safe_list_len jsonLoads litEval sv
  let b := safe_list_len jsonLoads litEval tv
  if a = -1 ∨ b = -1 then "Parse error (non-list)"
  else if a ≠ b then
    "Length mismatch (signs=" ++ toString a ++ ", times=" ++ toString b ++ ")"
  else "OK"

/-- The `<signs_col>_pair_check` column for one configured pair. -/
def check_signs_time_pairs (jsonLoads litEval : String → Option (Option Nat))
    (rows : List (PyCell × PyCell)) : List String :=
  rows.map (fun r => pairCheckLabel jsonLoads litEval r.1 r.2)

/-- C8: per row of a configured pair, a parse failure of either side yields
the label "Parse error (non-list)", a successful parse with differing
lengths yields the mismatch label reporting both lengths, and matching
lengths yield "OK"; the string parse tries JSON first and falls back to a
literal parse only when the JSON parse raises. -/
theorem spec_c8_pair_check (jsonLoads litEval : String → Option (Option Nat))
    (rows : List (PyCell × PyCell)) (j : Nat) (hj : j < rows.length) :
    ((check_signs_time_pairs jsonLoads litEval rows).length = rows.length) ∧
    (safe_list_len jsonLoads litEval (nthD (.na, .na) rows j).1 = -1 ∨
        safe_list_len jsonLoads litEval (nthD (.na, .na) rows j).2 = -1 →
      nthD "" (check_signs_time_pairs jsonLoads litEval rows) j =
        "Parse error (non-list)") ∧
    (∀ a b : Nat,
      safe_list_len jsonLoads litEval (nthD (.na, .na) rows j).1 = a →
      safe_list_len jsonLoads litEval (nthD (.na, .na) rows j).2 = b →
      a ≠ b →
      nthD "" (check_signs_time_pairs jsonLoads litEval rows) j =
        "Length mismatch (signs=" ++ toString (a : Int) ++
          ", times=" ++ toString (b : Int) ++ ")") ∧
    (∀ a : Nat,
      safe_list_len jsonLoads litEval (nthD (.na, .na) rows j).1 = a →
      safe_list_len jsonLoads litEval (nthD (.na, .na) rows j).2 = a →
      nthD "" (check_signs_time_pairs jsonLoads litEval rows) j = "OK") ∧
    (∀ (s : String) (n : Nat), jsonLoads s = some (some n) →
      safe_list_len jsonLoads litEval (.raw s) = n) ∧
    (∀ s : String, jsonLoads s = some none →
      safe_list_len jsonLoads litEval (.raw s) = -1) ∧
    (∀ (s : String) (n : Nat), jsonLoads s = none → litEval s = some (some n) →
      safe_list_len jsonLoads litEval (.raw s) = n) ∧
    (∀ s : String, jsonLoads s = none → (litEval s = some none ∨ litEval s = none) →
      safe_list_len jsonLoads litEval (.raw s) = -1) := by
  have hnth : nthD "" (check_signs_time_pairs jsonLoads litEval rows) j =
      pairCheckLabel jsonLoads litEval (nthD (.na, .na) rows j).1
        (nthD (.na, .na) rows j).2 := by
    rw [check_signs_time_pairs]
    exact nthD_map _ (.na, .na) "" rows j hj
  refine ⟨by simp [check_signs_time_pairs], ?_, ?_, ?_, ?_, ?_, ?_, ?_⟩
  · intro h
    rw [hnth, pairCheckLabel]
    simp only [if_pos h]
  · intro a b ha hb hab
    rw [hnth, pairCheckLabel]
    rw [ha, hb]
    have hne : ¬((a : Int) = -1 ∨ (b : Int) = -1) := by
      push_neg
      omega
    rw [if_neg hne, if_pos (by exact_mod_cast hab)]
  · intro a ha hb
    rw [hnth, pairCheckLabel]
    rw [ha, hb]
    have hne : ¬((a : Int) = -1 ∨ (a : Int) = -1) := by
      push_neg
      omega
    rw [if_neg hne, if_neg (by simp)]
  · intro s n h
    simp [safe_list_len, h]
  · intro s h
    simp [safe_list_len, h]
  · intro s n h1 h2
    simp [safe_list_len, h1, h2]
  · intro s h1 h2
    rcases h2 with h2 | h2 <;> simp [safe_list_len, h1, h2]

/-- Witness for claim C8 at concrete parsers and rows. -/
theorem spec_c8_pair_check_witness :
    nthD "" (check_signs_time_pairs
      (fun s => if s = "[1, 2]" then some (some 2) else none)
      (fun _ => none)
      [(.raw "[1, 2]", .pylist 3), (.raw "oops", .pylist 1)]) 0 =
      "Length mismatch (signs=2, times=3)" ∧
    nthD "" (check_signs_time_pairs
      (fun s => if s = "[1, 2]" then some (some 2) else none)
      (fun _ => none)
      [(.raw "[1, 2]", .pylist 3), (.raw "oops", .pylist 1)]) 1 =
      "Parse error (non-list)" := by
  constructor
  · have h := (spec_c8_pair_check
      (fun s => if s = "[1, 2]" then some (some 2) else none)
      (fun _ => none)
      [(.raw "[1, 2]", .pylist 3), (.raw "oops", .pylist 1)] 0 (by simp)).2.2.1
      2 3 (by decide) (by decide) (by decide)
    rw [h]
    rfl
  · exact (spec_c8_pair_check
      (fun s => if s = "[1, 2]" then some (some 2) else none)
      (fun _ => none)
      [(.raw "[1, 2]", .pylist 3), (.raw "oops", .pylist 1)] 1 (by simp)).2.1
      (Or.inl (by decide))

/-! ### Toggle-anomaly flags (`get_issue_labels` / `add_problem_flags`,
claim C9) -/

/-- Loop of `get_issue_labels` (lines 74-85), with an explicit fuel argument
so that the recursion is structural; the fuel starts at the sequence length
and cannot run out before the loop guard `i < n - 1` fails, because `i`
advances by at least one while the fuel drops by exactly one. -/
def issueLoopF (seq : List String) : Nat → Nat → List String → List String
  | 0, _, labels => labels
  | fuel + 1, i, labels =>
      if i + 1 < seq.length then
        if nthD "" seq i = "No" ∧ nthD "" seq (i - 1) = "Yes" ∧
            nthD "" seq (i + 1) = "Yes" then
          issueLoopF seq fuel (i + 2) (labels.set i "Immediate exit/re-entry")
        else if nthD "" seq i = "Yes" ∧ nthD "" seq (i - 1) = "No" ∧
            nthD "" seq (i + 1) = "No" then
          issueLoopF seq fuel (i + 2) (labels.set i "Immediate entry/exit")
        else
          issueLoopF seq fuel (i + 1) labels
      else labels

/-- Per-scene toggle labels: the default "OK" row per sample, overwritten at
the middle of each non-overlapping (Yes, No, Yes) or (No, Yes, No) window. -/
def get_issue_labels (seq : List String) : List String :=
  issueLoopF seq seq.length 1 (List.replicate seq.length "OK")

/-- Positions (in original order) of the rows of scene `s`; pandas `groupby`
keeps original order within a group and drops missing keys. -/
def scenePositions [DecidableEq σ] (scene : List (Option σ)) (s : σ) : List Nat :=
  (List.range scene.length).filter (fun j => decide (nthD none scene j = some s))

/-- Position of `i` in a list of indices (the row's rank within its scene). -/
def posOf (i : Nat) : List Nat → Nat
  | [] => 0
  | x :: t => if x = i then 0 else posOf i t + 1

/-- Model of `add_problem_flags` (lines 89-107) for one base column: the
emitted `*_Auto_Check_check` column.  The column is created by the first
masked `.loc` assignment, so rows of no group — rows whose scene identifier
is missing, which pandas `groupby` drops — hold a missing value (`none`),
while each grouped row holds the label at its rank within its scene's
sequence. -/
def add_problem_flags [DecidableEq σ] (scene : List (Option σ)) (vals : List String) :
    List (Option String) :=
  tab (fun i =>
    match nthD none scene i with
    | none => none
    | some s =>
        some (nthD ""
          (get_issue_labels ((scenePositions scene s).map (fun j => nthD "" vals j)))
          (posOf i (scenePositions scene s)))) 0 scene.length

/-- Model of `check_divided_undivided_consistency` (lines 112-129): a column
initialised to "OK", flagged where both cells are present and equal. -/
def check_divided_undivided (d u : List (Option String)) : List String :=
  (d.zip u).map (fun r =>
    match r.1, r.2 with
    | some x, some y =>
        if x = y then "Divided/Undivided inconsistency (both equal)" else "OK"
    | _, _ => "OK")

theorem issueLoopF_length (seq : List String) :
    ∀ (fuel i : Nat) (labels : List String),
      (issueLoopF seq fuel i labels).length = labels.length
  | 0, _, _ => rfl
  | fuel + 1, i, labels => by
      rw [issueLoopF]
      split
      · split
        · rw [issueLoopF_length seq fuel _ _, List.length_set]
        · split
          · rw [issueLoopF_length seq fuel _ _, List.length_set]
          · rw [issueLoopF_length seq fuel _ _]
      · rfl

theorem nthD_vocab_set (d : α) (labels : List α) (v : α) (j i : Nat)
    (P : α → Prop) (hv : P v) (hall : ∀ j', j' < labels.length → P (nthD d labels j'))
    (hj : j < (labels.set i v).length) : P (nthD d (labels.set i v) j) := by
  by_cases hij : i = j
  · subst hij
    rw [List.length_set] at hj
    rw [nthD_set_eq d v labels i hj]
    exact hv
  · rw [nthD_set d v labels i j hij]
    rw [List.length_set] at hj
    exact hall j hj

theorem issueLoopF_vocab (seq : List String) (P : String → Prop)
    (h1 : P "Immediate exit/re-entry") (h2 : P "Immediate entry/exit") :
    ∀ (fuel i : Nat) (labels : List String),
      (∀ j, j < labels.length → P (nthD "" labels j)) →
      ∀ j, j < (issueLoopF seq fuel i labels).length →
        P (nthD "" (issueLoopF seq fuel i labels) j)
  | 0, _, _, hall, j, hj => hall j hj
  | fuel + 1, i, labels, hall, j, hj => by
      rw [issueLoopF] at hj ⊢
      by_cases hg : i + 1 < seq.length
      · rw [if_pos hg] at hj ⊢
        by_cases hc1 : nthD "" seq i = "No" ∧ nthD "" seq (i - 1) = "Yes" ∧
            nthD "" seq (i + 1) = "Yes"
        · rw [if_pos hc1] at hj ⊢
          exact issueLoopF_vocab seq P h1 h2 fuel (i + 2) _
            (fun j' hj' => nthD_vocab_set "" labels _ j' i P h1 hall hj') j hj
        · rw [if_neg hc1] at hj ⊢
          by_cases hc2 : nthD "" seq i = "Yes" ∧ nthD "" seq (i - 1) = "No" ∧
              nthD "" seq (i + 1) = "No"
          · rw [if_pos hc2] at hj ⊢
            exact issueLoopF_vocab seq P h1 h2 fuel (i + 2) _
              (fun j' hj' => nthD_vocab_set "" labels _ j' i P h2 hall hj') j hj
          · rw [if_neg hc2] at hj ⊢
            exact issueLoopF_vocab seq P h1 h2 fuel (i + 1) labels hall j hj
      · rw [if_neg hg] at hj ⊢
        exact hall j hj

theorem posOf_lt_of_mem (i : Nat) :
    ∀ l : List Nat, i ∈ l → posOf i l < l.length
  | [], h => by simp at h
  | x :: t, h => by
      rw [posOf]
      by_cases hx : x = i
      · simp [hx]
      · have hmem : i ∈ t := by
          rcases List.mem_cons.mp h with h' | h'
          · exact absurd h'.symm hx
          · exact h'
        simp only [if_neg hx, List.length_cons]
        have := posOf_lt_of_mem i t hmem
        omega

theorem mem_scenePositions [DecidableEq σ] (scene : List (Option σ)) (s : σ)
    (i : Nat) (hi : i < scene.length) (hs : nthD none scene i = some s) :
    i ∈ scenePositions scene s := by
  rw [scenePositions]
  exact List.mem_filter.mpr ⟨List.mem_range.mpr hi, by simp [hs]⟩

/-- C9 fails on the code: the toggle-check column emitted by
`add_problem_flags` holds a missing value — not "OK" — at a row whose scene
identifier is missing, because pandas `groupby` drops such rows and the
column is only created by the masked per-group assignments. -/
theorem spec_c9_counterexample :
    add_problem_flags [some (0 : ℕ), none] ["Yes", "Yes"] = [some "OK", none] ∧
    nthD (some "OK") (add_problem_flags [some (0 : ℕ), none] ["Yes", "Yes"]) 1 ≠
      some "OK" := by
  constructor
  · decide
  · decide

/-- C9 amended: every emitted check column has exactly one value per row;
for `add_problem_flags`, a row whose scene identifier is missing holds a
missing value, while every grouped row holds one of "OK",
"Immediate exit/re-entry", "Immediate entry/exit" — in particular "OK"
whenever it is not flagged; checks that pre-initialise their column, such as
the divided/undivided check, hold "OK" at every row they do not flag. -/
theorem spec_c9_amended (σ : Type) [DecidableEq σ] :
    (∀ (scene : List (Option σ)) (vals : List String),
      (add_problem_flags scene vals).length = scene.length) ∧
    (∀ (scene : List (Option σ)) (vals : List String) (i : Nat), i < scene.length →
      nthD none scene i = none →
      nthD (some "") (add_problem_flags scene vals) i = none) ∧
    (∀ (scene : List (Option σ)) (vals : List String) (i : Nat) (s : σ),
      i < scene.length → nthD none scene i = some s →
      ∃ lbl, nthD (some "") (add_problem_flags scene vals) i = some lbl ∧
        (lbl = "OK" ∨ lbl = "Immediate exit/re-entry" ∨
          lbl = "Immediate entry/exit")) ∧
    (∀ d u : List (Option String),
      (check_divided_undivided d u).length = min d.length u.length) ∧
    (∀ (d u : List (Option String)) (i : Nat), i < (d.zip u).length →
      nthD "" (check_divided_undivided d u) i = "OK" ∨
      nthD "" (check_divided_undivided d u) i =
        "Divided/Undivided inconsistency (both equal)") := by
  refine ⟨?_, ?_, ?_, ?_, ?_⟩
  · intro scene vals
    rw [add_problem_flags, tab_length]
  · intro scene vals i hi hnone
    rw [add_problem_flags, nthD_tab _ _ scene.length 0 i hi]
    simp only [Nat.zero_add, hnone]
  · intro scene vals i s hi hs
    rw [add_problem_flags, nthD_tab _ _ scene.length 0 i hi]
    simp only [Nat.zero_add, hs]
    refine ⟨_, rfl, ?_⟩
    have hpos : posOf i (scenePositions scene s) < (scenePositions scene s).length :=
      posOf_lt_of_mem i _ (mem_scenePositions scene s i hi hs)
    exact issueLoopF_vocab
      ((scenePositions scene s).map (fun j => nthD "" vals j))
      (fun lbl => lbl = "OK" ∨ lbl = "Immediate exit/re-entry" ∨
        lbl = "Immediate entry/exit")
      (Or.inr (Or.inl rfl)) (Or.inr (Or.inr rfl))
      ((scenePositions scene s).map (fun j => nthD "" vals j)).length 1
      (List.replicate
        ((scenePositions scene s).map (fun j => nthD "" vals j)).length "OK")
      (fun j' hj' => by
        rw [List.length_replicate] at hj'
        rw [nthD_replicate "" "OK" _ j' hj']
        exact Or.inl rfl)
      (posOf i (scenePositions scene s))
      (by
        rw [issueLoopF_length, List.length_replicate, List.length_map]
        exact hpos)
  · intro d u
    rw [check_divided_undivided, List.length_map, List.length_zip]
  · intro d u i hi
    rw [check_divided_undivided]
    rw [nthD_map _ (none, none) "" (d.zip u) i hi]
    rcases (nthD (none, none) (d.zip u) i).1 with _ | x
    · exact Or.inl rfl
    · rcases (nthD (none, none) (d.zip u) i).2 with _ | y
      · exact Or.inl rfl
      · by_cases hxy : x = y
        · right
          simp [hxy]
        · left
          simp [hxy]

/-- Witness for the amended claim C9 at concrete inputs. -/
theorem spec_c9_amended_witness :
    ((add_problem_flags [some (0 : ℕ), none] ["No", "No"]).length = 2) ∧
    (nthD (some "") (add_problem_flags [some (0 : ℕ), none] ["No", "No"]) 1 = none) ∧
    (∃ lbl, nthD (some "") (add_problem_flags [some (0 : ℕ), none] ["No", "No"]) 0 =
        some lbl ∧
      (lbl = "OK" ∨ lbl = "Immediate exit/re-entry" ∨ lbl = "Immediate entry/exit")) ∧
    (nthD "" (check_divided_undivided [some "Yes"] [some "Yes"]) 0 = "OK" ∨
      nthD "" (check_divided_undivided [some "Yes"] [some "Yes"]) 0 =
        "Divided/Undivided inconsistency (both equal)") :=
  ⟨by simpa using (spec_c9_amended ℕ).1 [some 0, none] ["No", "No"],
   (spec_c9_amended ℕ).2.1 [some 0, none] ["No", "No"] 1 (by simp) rfl,
   (spec_c9_amended ℕ).2.2.1 [some 0, none] ["No", "No"] 0 0 (by simp) rfl,
   (spec_c9_amended ℕ).2.2.2.2 [some "Yes"] [some "Yes"] 0 (by simp)⟩

/-! ### Cloudiness state machine (`check_cloudiness_scene_switch`,
claims C1 and C2)

The check is modelled for one scene on the three column sequences.  Step 1
is the in-place zig-zag smoothing of each column; step 2 walks the rows
enforcing exclusivity while carrying the last valid state (0 = Clear,
1 = PartlyCloudy, 2 = Overcast, -1 = invalid); step 3 revisits the state
sequence and writes the transition flag at each landing row of an illegal
direct jump. -/

/-- In-place zig-zag pass (lines 284-289): position `i` is compared against
the already-corrected value at `i - 1` and the original value at `i + 1`;
the last position is never rewritten. -/
def zigzagGo (prev : String) : List String → List String
  | x :: y :: rest =>
      let w := if prev = y ∧ x ≠ prev then prev else x
      w :: zigzagGo w (y :: rest)
  | l => l

def zigzagSmooth : List String → List String
  | [] => []
  | x :: rest => x :: zigzagGo x rest

def zip3 : List α → List β → List γ → List (α × β × γ)
  | a :: as, b :: bs, c :: cs => (a, b, c) :: zip3 as bs cs
  | _, _, _ => []

/-- The scene's rows after step 1, as (clear, partly, overcast) triples. -/
def cloudRows (clear partly overcast : List String) :
    List (String × String × String) :=
  zip3 (zigzagSmooth clear) (zigzagSmooth partly) (zigzagSmooth overcast)

def cloudInvalidMsg : String := "Cloudiness inconsistency: multiple or none active"

def cloudTransMsg : String := "Clear <-> Overcast must go through PartlyCloudy"

/-- Number of the three fields equal to "Yes" at a row (line 305). -/
def activeCount (r : String × String × String) : Nat :=
  (if r.1 = "Yes" then 1 else 0) + (if r.2.1 = "Yes" then 1 else 0) +
    (if r.2.2 = "Yes" then 1 else 0)

/-- The first active state in dictionary order 0, 1, 2 (line 309); the
unique one when exactly one field is active. -/
def activeState (r : String × String × String) : Int :=
  if r.1 = "Yes" then 0 else if r.2.1 = "Yes" then 1 else 2

/-- Update of `last_valid` at one row: set on a valid row, kept otherwise. -/
def lvStep (lv : Option Int) (r : String × String × String) : Option Int :=
  if activeCount r = 1 then some (activeState r) else lv

/-- One corrected row of step 2 (lines 307-322): its three fields, its entry
of `state_seq`, and its check label before step 3. -/
structure CloudCell where
  clear : String
  partly : String
  overcast : String
  state : Int
  label : String
deriving DecidableEq

def exclCell (lv : Option Int) (r : String × String × String) : CloudCell :=
  if activeCount r = 1 then
    ⟨r.1, r.2.1, r.2.2, activeState r, "OK"⟩
  else
    match lv with
    | some v =>
        ⟨if v = 0 then "Yes" else "No", if v = 1 then "Yes" else "No",
          if v = 2 then "Yes" else "No", v, "OK"⟩
    | none => ⟨r.1, r.2.1, r.2.2, -1, cloudInvalidMsg⟩

def exclGo (lv : Option Int) : List (String × String × String) → List CloudCell
  | [] => []
  | r :: rest => exclCell lv r :: exclGo (lvStep lv r) rest

/-- The `brief` detour test of step 3 (lines 330-334). -/
def briefDetour (s : List Int) (j : Nat) : Bool :=
  decide (2 ≤ j) && decide (j + 1 < s.length) &&
    decide (nthD (-1) s (j - 2) = nthD (-1) s (j - 1)) &&
    decide (nthD (-1) s (j + 1) = nthD (-1) s (j - 1))

/-- Label written at row `j` by step 3 (lines 325-336): rows outside the
loop range or failing the flag condition keep their step-2 label. -/
def transLabel (s : List Int) (j : Nat) (old : String) : String :=
  if 1 ≤ j ∧ j < s.length then
    if nthD (-1) s (j - 1) ≠ -1 ∧ nthD (-1) s j ≠ -1 ∧
        (nthD (-1) s j - nthD (-1) s (j - 1)).natAbs = 2 ∧
        briefDetour s j = false then
      cloudTransMsg
    else old
  else old

def transGo (s : List Int) : Nat → List String → List String
  | _, [] => []
  | i, c :: rest => transLabel s i c :: transGo s (i + 1) rest

/-- The final columns produced for one scene by
`check_cloudiness_scene_switch` (lines 254-338). -/
structure CloudOut where
  clear : List String
  partly : List String
  overcast : List String
  states : List Int
  checks : List String
deriving DecidableEq

def check_cloudiness_scene_switch (clear partly overcast : List String) : CloudOut :=
  let cells := exclGo none (cloudRows clear partly overcast)
  { clear := cells.map (fun c => c.clear)
    partly := cells.map (fun c => c.partly)
    overcast := cells.map (fun c => c.overcast)
    states := cells.map (fun c => c.state)
    checks := transGo (cells.map (fun c => c.state)) 0 (cells.map (fun c => c.label)) }

/-- The `last_valid` value held before processing row `j`. -/
def lastValidBefore (rows : List (String × String × String)) (j : Nat) : Option Int :=
  List.foldl lvStep none (rows.take j)

example : zigzagSmooth ["Yes", "No", "Yes", "No", "Yes"] =
    ["Yes", "Yes", "Yes", "Yes", "Yes"] := by decide

example :
    (check_cloudiness_scene_switch
      ["No", "Yes", "Yes", "No"] ["Yes", "No", "No", "No"]
      ["No", "No", "No", "Yes"]).states = [1, 0, 0, 2] ∧
    (check_cloudiness_scene_switch
      ["No", "Yes", "Yes", "No"] ["Yes", "No", "No", "No"]
      ["No", "No", "No", "Yes"]).checks = ["OK", "OK", "OK", cloudTransMsg] := by
  decide

theorem exclGo_length :
    ∀ (rows : List (String × String × String)) (lv : Option Int),
      (exclGo lv rows).length = rows.length
  | [], _ => rfl
  | r :: rest, lv => by simp [exclGo, exclGo_length rest (lvStep lv r)]

theorem exclGo_nthD (dc : CloudCell) (dr : String × String × String) :
    ∀ (rows : List (String × String × String)) (lv : Option Int) (j : Nat),
      j < rows.length →
      nthD dc (exclGo lv rows) j =
        exclCell (List.foldl lvStep lv (rows.take j)) (nthD dr rows j)
  | r :: rest, lv, 0, _ => by simp [exclGo, nthD]
  | r :: rest, lv, j + 1, h => by
      rw [exclGo, nthD_cons_succ, nthD_cons_succ, List.take_succ_cons,
        List.foldl_cons]
      exact exclGo_nthD dc dr rest (lvStep lv r) j (by simpa using h)
  | [], _, j, h => by simp at h

theorem foldl_lvStep_take_succ (dr : String × String × String) :
    ∀ (rows : List (String × String × String)) (j : Nat) (lv : Option Int),
      j < rows.length →
      List.foldl lvStep lv (rows.take (j + 1)) =
        lvStep (List.foldl lvStep lv (rows.take j)) (nthD dr rows j)
  | r :: rest, 0, lv, _ => by simp [nthD]
  | r :: rest, j + 1, lv, h => by
      rw [List.take_succ_cons, List.take_succ_cons, List.foldl_cons,
        List.foldl_cons, nthD_cons_succ]
      exact foldl_lvStep_take_succ dr rest j (lvStep lv r) (by simpa using h)
  | [], j, lv, h => by simp at h

theorem exclCell_state_getD (lv : Option Int) (r : String × String × String) :
    (exclCell lv r).state = (lvStep lv r).getD (-1) := by
  rw [exclCell.eq_def, lvStep]
  by_cases h : activeCount r = 1
  · rw [if_pos h, if_pos h]
    rfl
  · rw [if_neg h, if_neg h]
    cases lv <;> rfl

theorem transGo_nthD (s : List Int) (d : String) :
    ∀ (cs : List String) (i j : Nat), j < cs.length →
      nthD d (transGo s i cs) j = transLabel s (i + j) (nthD "OK" cs j)
  | c :: rest, i, 0, _ => by simp [transGo, nthD]
  | c :: rest, i, j + 1, h => by
      rw [transGo, nthD_cons_succ, nthD_cons_succ,
        transGo_nthD s d rest (i + 1) j (by simpa using h)]
      have he : i + 1 + j = i + (j + 1) := by omega
      rw [he]
  | [], _, j, h => by simp at h

theorem cloud_states_length (clear partly overcast : List String) :
    (check_cloudiness_scene_switch clear partly overcast).states.length =
      (cloudRows clear partly overcast).length := by
  show ((exclGo none (cloudRows clear partly overcast)).map
    (fun c => c.state)).length = _
  rw [List.length_map, exclGo_length]

theorem cloud_states_nthD (clear partly overcast : List String) (j : Nat)
    (hj : j < (cloudRows clear partly overcast).length) :
    nthD (-1) (check_cloudiness_scene_switch clear partly overcast).states j =
      (lastValidBefore (cloudRows clear partly overcast) (j + 1)).getD (-1) := by
  have hlen : j < (exclGo none (cloudRows clear partly overcast)).length := by
    rw [exclGo_length]
    exact hj
  have h1 : nthD (-1) (check_cloudiness_scene_switch clear partly overcast).states j =
      (nthD ⟨"", "", "", -1, ""⟩
        (exclGo none (cloudRows clear partly overcast)) j).state :=
    nthD_map (fun c => c.state) ⟨"", "", "", -1, ""⟩ (-1) _ j hlen
  rw [h1, exclGo_nthD _ ("", "", "") _ none j hj, exclCell_state_getD,
    lastValidBefore, foldl_lvStep_take_succ ("", "", "") _ j none hj]

/-- C1: in the cloudiness check, every direct transition between resolved
states whose indices differ by 2 (a Clear ↔ Overcast jump) that does not
match the one-sample detour pattern — the sample two positions back and the
sample one position forward both equal to the pre-transition state — is
flagged at the transition's landing row with
"Clear <-> Overcast must go through PartlyCloudy"; the state sequence
`[Clear, Overcast, Clear]` of the spec's example is the instance at `j = 1`,
where the detour pattern cannot be satisfied. -/
theorem spec_c1_cloudiness_transition (clear partly overcast : List String) (j : Nat)
    (h1 : 1 ≤ j)
    (h2 : j < (check_cloudiness_scene_switch clear partly overcast).states.length)
    (h3 : nthD (-1) (check_cloudiness_scene_switch clear partly overcast).states
      (j - 1) ≠ -1)
    (h4 : nthD (-1) (check_cloudiness_scene_switch clear partly overcast).states j ≠ -1)
    (h5 : (nthD (-1) (check_cloudiness_scene_switch clear partly overcast).states j -
      nthD (-1) (check_cloudiness_scene_switch clear partly overcast).states
        (j - 1)).natAbs = 2)
    (h6 : briefDetour (check_cloudiness_scene_switch clear partly overcast).states j
      = false) :
    nthD "" (check_cloudiness_scene_switch clear partly overcast).checks j =
      cloudTransMsg := by
  have hlab : j < ((exclGo none (cloudRows clear partly overcast)).map
      (fun c => c.label)).length := by
    rw [List.length_map]
    rw [cloud_states_length] at h2
    rw [exclGo_length]
    exact h2
  have hch : nthD "" (check_cloudiness_scene_switch clear partly overcast).checks j =
      transLabel (check_cloudiness_scene_switch clear partly overcast).states (0 + j)
        (nthD "OK" ((exclGo none (cloudRows clear partly overcast)).map
          (fun c => c.label)) j) :=
    transGo_nthD _ "" _ 0 j hlab
  rw [hch, Nat.zero_add, transLabel, if_pos ⟨h1, h2⟩, if_pos ⟨h3, h4, h5, h6⟩]

/-- Witness for claim C1: a scene resolving to states
Clear, Clear, Overcast, Overcast has a direct jump landing at row 2; the
detour pattern fails there (the next sample is Overcast again), so row 2 is
flagged. -/
theorem spec_c1_cloudiness_transition_witness :
    nthD "" (check_cloudiness_scene_switch
      ["Yes", "Yes", "No", "No"] ["No", "No", "No", "No"]
      ["No", "No", "Yes", "Yes"]).checks 2 = cloudTransMsg :=
  spec_c1_cloudiness_transition _ _ _ 2 (by omega) (by decide) (by decide)
    (by decide) (by decide) (by decide)

/-- C2: at a row (after zig-zag pre-smoothing) where the number of active
cloudiness fields is not exactly one: if an earlier row of the scene
established a valid state, all three fields are overwritten to encode the
last valid state and the row's final check label is "OK"; if no valid state
exists yet, the fields are left as they are and the label is
"Cloudiness inconsistency: multiple or none active". -/
theorem spec_c2_cloudiness_exclusivity (clear partly overcast : List String) (j : Nat)
    (hj : j < (cloudRows clear partly overcast).length)
    (hcnt : activeCount (nthD ("", "", "") (cloudRows clear partly overcast) j) ≠ 1) :
    (∀ v : Int, lastValidBefore (cloudRows clear partly overcast) j = some v →
      nthD "" (check_cloudiness_scene_switch clear partly overcast).clear j =
        (if v = 0 then "Yes" else "No") ∧
      nthD "" (check_cloudiness_scene_switch clear partly overcast).partly j =
        (if v = 1 then "Yes" else "No") ∧
      nthD "" (check_cloudiness_scene_switch clear partly overcast).overcast j =
        (if v = 2 then "Yes" else "No") ∧
      nthD "" (check_cloudiness_scene_switch clear partly overcast).checks j = "OK") ∧
    (lastValidBefore (cloudRows clear partly overcast) j = none →
      nthD "" (check_cloudiness_scene_switch clear partly overcast).clear j =
        (nthD ("", "", "") (cloudRows clear partly overcast) j).1 ∧
      nthD "" (check_cloudiness_scene_switch clear partly overcast).partly j =
        (nthD ("", "", "") (cloudRows clear partly overcast) j).2.1 ∧
      nthD "" (check_cloudiness_scene_switch clear partly overcast).overcast j =
        (nthD ("", "", "") (cloudRows clear partly overcast) j).2.2 ∧
      nthD "" (check_cloudiness_scene_switch clear partly overcast).checks j =
        cloudInvalidMsg) := by
  have hlen : j < (exclGo none (cloudRows clear partly overcast)).length := by
    rw [exclGo_length]
    exact hj
  have hcell : nthD (⟨"", "", "", -1, ""⟩ : CloudCell)
      (exclGo none (cloudRows clear partly overcast)) j =
      exclCell (lastValidBefore (cloudRows clear partly overcast) j)
        (nthD ("", "", "") (cloudRows clear partly overcast) j) :=
    exclGo_nthD _ _ _ none j hj
  have hclear : nthD "" (check_cloudiness_scene_switch clear partly overcast).clear j =
      (exclCell (lastValidBefore (cloudRows clear partly overcast) j)
        (nthD ("", "", "") (cloudRows clear partly overcast) j)).clear := by
    have h0 := nthD_map (fun c => c.clear) (⟨"", "", "", -1, ""⟩ : CloudCell) ""
      (exclGo none (cloudRows clear partly overcast)) j hlen
    rw [hcell] at h0
    exact h0
  have hpartly : nthD "" (check_cloudiness_scene_switch clear partly overcast).partly j =
      (exclCell (lastValidBefore (cloudRows clear partly overcast) j)
        (nthD ("", "", "") (cloudRows clear partly overcast) j)).partly := by
    have h0 := nthD_map (fun c => c.partly) (⟨"", "", "", -1, ""⟩ : CloudCell) ""
      (exclGo none (cloudRows clear partly overcast)) j hlen
    rw [hcell] at h0
    exact h0
  have hovercast : nthD ""
      (check_cloudiness_scene_switch clear partly overcast).overcast j =
      (exclCell (lastValidBefore (cloudRows clear partly overcast) j)
        (nthD ("", "", "") (cloudRows clear partly overcast) j)).overcast := by
    have h0 := nthD_map (fun c => c.overcast) (⟨"", "", "", -1, ""⟩ : CloudCell) ""
      (exclGo none (cloudRows clear partly overcast)) j hlen
    rw [hcell] at h0
    exact h0
  have hlabel : nthD "OK" ((exclGo none (cloudRows clear partly overcast)).map
      (fun c => c.label)) j =
      (exclCell (lastValidBefore (cloudRows clear partly overcast) j)
        (nthD ("", "", "") (cloudRows clear partly overcast) j)).label := by
    have h0 := nthD_map (fun c => c.label) (⟨"", "", "", -1, ""⟩ : CloudCell) "OK"
      (exclGo none (cloudRows clear partly overcast)) j hlen
    rw [hcell] at h0
    exact h0
  have hch : nthD "" (check_cloudiness_scene_switch clear partly overcast).checks j =
      transLabel (check_cloudiness_scene_switch clear partly overcast).states j
        ((exclCell (lastValidBefore (cloudRows clear partly overcast) j)
          (nthD ("", "", "") (cloudRows clear partly overcast) j)).label) := by
    have h0 := transGo_nthD
      ((exclGo none (cloudRows clear partly overcast)).map (fun c => c.state)) ""
      ((exclGo none (cloudRows clear partly overcast)).map (fun c => c.label)) 0 j
      (by rw [List.length_map]; exact hlen)
    rw [Nat.zero_add, hlabel] at h0
    exact h0
  have hstate_j : nthD (-1) (check_cloudiness_scene_switch clear partly overcast).states j
      = (lastValidBefore (cloudRows clear partly overcast) j).getD (-1) := by
    rw [cloud_states_nthD clear partly overcast j hj]
    have h0 : lastValidBefore (cloudRows clear partly overcast) (j + 1) =
        lvStep (lastValidBefore (cloudRows clear partly overcast) j)
          (nthD ("", "", "") (cloudRows clear partly overcast) j) := by
      rw [lastValidBefore, lastValidBefore,
        foldl_lvStep_take_succ ("", "", "") _ j none hj]
    rw [h0, lvStep, if_neg hcnt]
  constructor
  · intro v hv
    have hc : exclCell (lastValidBefore (cloudRows clear partly overcast) j)
        (nthD ("", "", "") (cloudRows clear partly overcast) j) =
        ⟨if v = 0 then "Yes" else "No", if v = 1 then "Yes" else "No",
          if v = 2 then "Yes" else "No", v, "OK"⟩ := by
      rw [hv, exclCell.eq_def, if_neg hcnt]
    have hjpos : 1 ≤ j := by
      rcases Nat.eq_zero_or_pos j with h0 | h0
      · rw [h0] at hv
        simp [lastValidBefore] at hv
      · exact h0
    have hstj : nthD (-1) (check_cloudiness_scene_switch clear partly overcast).states j
        = v := by
      rw [hstate_j, hv]
      rfl
    have hstj1 : nthD (-1)
        (check_cloudiness_scene_switch clear partly overcast).states (j - 1) = v := by
      have hj1 : j - 1 < (cloudRows clear partly overcast).length := by omega
      rw [cloud_states_nthD clear partly overcast (j - 1) hj1]
      have he : j - 1 + 1 = j := by omega
      rw [he, hv]
      rfl
    refine ⟨by rw [hclear, hc], by rw [hpartly, hc], by rw [hovercast, hc], ?_⟩
    rw [hch, hc]
    by_cases houter : 1 ≤ j ∧
        j < (check_cloudiness_scene_switch clear partly overcast).states.length
    · rw [transLabel, if_pos houter, if_neg ?_]
      intro hcond
      obtain ⟨-, -, habs, -⟩ := hcond
      rw [hstj, hstj1] at habs
      simp at habs
    · rw [transLabel, if_neg houter]
  · intro hv
    have hc : exclCell (lastValidBefore (cloudRows clear partly overcast) j)
        (nthD ("", "", "") (cloudRows clear partly overcast) j) =
        ⟨(nthD ("", "", "") (cloudRows clear partly overcast) j).1,
          (nthD ("", "", "") (cloudRows clear partly overcast) j).2.1,
          (nthD ("", "", "") (cloudRows clear partly overcast) j).2.2,
          -1, cloudInvalidMsg⟩ := by
      rw [hv, exclCell.eq_def, if_neg hcnt]
    have hstj : nthD (-1) (check_cloudiness_scene_switch clear partly overcast).states j
        = -1 := by
      rw [hstate_j, hv]
      rfl
    refine ⟨by rw [hclear, hc], by rw [hpartly, hc], by rw [hovercast, hc], ?_⟩
    rw [hch, hc]
    by_cases houter : 1 ≤ j ∧
        j < (check_cloudiness_scene_switch clear partly overcast).states.length
    · rw [transLabel, if_pos houter, if_neg ?_]
      intro hcond
      obtain ⟨-, hne, -, -⟩ := hcond
      exact hne hstj
    · rw [transLabel, if_neg houter]

/-- Witness for claim C2: with a prior valid Clear state, a two-active row
is silently forced back to Clear with label "OK"; with no prior valid state,
a two-active first row keeps its fields and is flagged. -/
theorem spec_c2_cloudiness_exclusivity_witness :
    (nthD "" (check_cloudiness_scene_switch
        ["Yes", "Yes"] ["No", "Yes"] ["No", "No"]).clear 1 = "Yes" ∧
      nthD "" (check_cloudiness_scene_switch
        ["Yes", "Yes"] ["No", "Yes"] ["No", "No"]).partly 1 = "No" ∧
      nthD "" (check_cloudiness_scene_switch
        ["Yes", "Yes"] ["No", "Yes"] ["No", "No"]).checks 1 = "OK") ∧
    (nthD "" (check_cloudiness_scene_switch ["Yes"] ["Yes"] ["No"]).clear 0 = "Yes" ∧
      nthD "" (check_cloudiness_scene_switch ["Yes"] ["Yes"] ["No"]).partly 0 = "Yes" ∧
      nthD "" (check_cloudiness_scene_switch ["Yes"] ["Yes"] ["No"]).checks 0 =
        cloudInvalidMsg) := by
  constructor
  · have h := ((spec_c2_cloudiness_exclusivity
      ["Yes", "Yes"] ["No", "Yes"] ["No", "No"] 1 (by decide) (by decide)).1
      0 (by decide))
    refine ⟨?_, ?_, h.2.2.2⟩
    · rw [h.1]
      rfl
    · rw [h.2.1]
      rfl
  · have h := ((spec_c2_cloudiness_exclusivity
      ["Yes"] ["Yes"] ["No"] 0 (by decide) (by decide)).2 (by decide))
    refine ⟨?_, ?_, h.2.2.2⟩
    · rw [h.1]
      decide
    · rw [h.2.1]
      decide

end VlmOdd
